import Mathlib

/-!
# Verification of the copilot-chat-history extension core

Shallow embedding of the session scanner, archive/retention engine,
skip-list, lock store and leader-election loop of the
`copilot-chat-history` VS Code extension (`src/extension.ts`,
`src/utils/sessionFiles.ts`, `src/markdown/chatMarkdown.ts`), together
with proofs about the specified properties.

Modelling conventions:
* File-system paths are lists of components (`path.join` is `++`,
  `path.dirname` is `dropLast`, `path.basename` is the last component).
* JavaScript strings are Lean `String`s handled characterwise
  (`substring`/`length` act on the character list; the transcripts the
  scanner handles are treated as sequences of scalar values).
* JavaScript truthiness of an optional string (`undefined` and `""` are
  falsy) is `jsTruthyStr`.
* Timestamps (`Date.now()`, `mtime`, heartbeats) are `Nat` milliseconds;
  age computations that can go negative in JS are done in `Int`.
* The host file system is a finite map from paths to typed file
  contents plus a set of directories; `fs.rename` replaces an existing
  destination file, as Node's `fs.promises.rename` does.
-/

namespace CopilotChat

/-- A path, as its list of components. -/
abbrev FPath := List String

/-! ## JavaScript string primitives used by the code -/

/-- `String.prototype.substring(0, n)` over characters. -/
def jsTake (n : Nat) (s : String) : String := ⟨s.data.take n⟩

/-- `String.prototype.length` over characters. -/
def jsLen (s : String) : Nat := s.data.length

/-- The characters `trim` strips (the whitespace occurring in chat text). -/
def isWsChar (c : Char) : Bool := c = ' ' || c = '\t' || c = '\n' || c = '\r'

/-- `String.prototype.trim`. -/
def jsTrim (s : String) : String :=
  ⟨((s.data.dropWhile isWsChar).reverse.dropWhile isWsChar).reverse⟩

/-- `text.replace(/\n/g, ' ')`. -/
def collapseNewlines (s : String) : String :=
  ⟨s.data.map fun c => if c = '\n' then ' ' else c⟩

/-- JS truthiness of an optional string (`undefined` and `""` are falsy). -/
def jsTruthyStr : Option String → Bool
  | some s => s ≠ ""
  | none => false

/-- `pre` occurs at the start of `l`. -/
def startsSeq (pre l : List Char) : Bool := pre = l.take pre.length

/-- `hay.includes(needle)` over character lists. -/
def seqIncl (hay needle : List Char) : Bool :=
  match hay with
  | [] => needle = []
  | _ :: rest => startsSeq needle hay || seqIncl rest needle

/-- `String.prototype.includes`. -/
def strIncludes (hay needle : String) : Bool := seqIncl hay.data needle.data

/-- `String.prototype.toLowerCase` (ASCII, as used on titles/filters). -/
def lowerStr (s : String) : String := ⟨s.data.map Char.toLower⟩

/-- `s` ends with `tail` (`String.prototype.endsWith`). -/
def strEnds (s tail : String) : Bool :=
  s.data.reverse.take tail.data.length = tail.data.reverse

/-- `path.extname` applied to a file name: the suffix from the last dot,
empty for dotless names and leading-dot files. -/
def extnameOf (name : String) : String :=
  let cs := name.data
  let tailRev := cs.reverse.takeWhile fun c => c ≠ '.'
  if tailRev.length = cs.length then ""
  else if cs.length = tailRev.length + 1 then ""
  else ⟨'.' :: tailRev.reverse⟩

/-- `path.basename(name, ext)` on a bare file name: strips `ext` when it
is a proper suffix. -/
def basenameStrip (name ext : String) : String :=
  if name ≠ ext ∧ strEnds name ext then
    ⟨name.data.take (name.data.length - ext.data.length)⟩
  else name

/-! ## Data model (`src/types.ts`) -/

/-- One conversation turn; only the user message text is relevant here.
`text?` is the `message.text` field (`none` when `message` or `text` is
absent). -/
structure ChatMessage where
  text? : Option String
deriving Repr, DecidableEq

/-- Parsed transcript content (`ChatSessionData`): the optional explicit
title and the request list (`none` when the `requests` field is absent,
which JS distinguishes from an empty array). -/
structure SessionData where
  customTitle? : Option String
  requests? : Option (List ChatMessage)
deriving Repr, DecidableEq

/-- `sessionData.requests ? sessionData.requests.length : 0`. -/
def messageCountOf (d : SessionData) : Nat :=
  match d.requests? with
  | some l => l.length
  | none => 0

/-- `!sessionData.requests || sessionData.requests.length === 0`
(the zero-turn test both scanners use). -/
def zeroTurns (d : SessionData) : Bool :=
  match d.requests? with
  | some l => l.isEmpty
  | none => true

/-- Title derivation shared by the full scan (`extension.ts:660-675`),
the background scan (`extension.ts:250-257`) and the restore command
(`extension.ts:1621-1628`): keep a truthy explicit `customTitle`;
otherwise, when the first request's message text is truthy, collapse
newlines, trim, take the first 50 characters, and append `'...'` when
the *original* text is longer than 50 characters. -/
def deriveCustomTitle (d : SessionData) : Option String :=
  if jsTruthyStr d.customTitle? then d.customTitle?
  else
    match d.requests? with
    | some (first :: _) =>
      match first.text? with
      | some txt =>
        if txt ≠ "" then
          some (jsTake 50 (jsTrim (collapseNewlines txt)) ++
            if 50 < jsLen txt then "..." else "")
        else d.customTitle?
      | none => d.customTitle?
    | _ => d.customTitle?

/-- A scanned chat-session record (`ChatSession`), with paths as
component lists and `lastModified` in milliseconds. -/
structure ChatSession where
  id : String
  customTitle? : Option String
  workspaceName : String
  workspacePath? : Option FPath
  lastModified : Nat
  filePath : FPath
  messageCount : Nat
  storageRoot : FPath
deriving Repr, DecidableEq

/-! ## Session scanner (`extension.ts`: `scanForChatSessions`,
`startBackgroundScan`) -/

/-- One transcript file inside a slot's `chatSessions` directory.
`parsed?` is `none` when `JSON.parse` throws. -/
structure TranscriptFile where
  name : String
  parsed? : Option SessionData
  mtime : Nat
deriving Repr, DecidableEq

/-- One workspace-storage slot. `folderUri?` is the `folder` field of
the slot's `workspace.json` (`none` when the file is missing, fails to
parse, or has no truthy `folder`). -/
structure WorkspaceSlot where
  slotName : String
  folderUri? : Option String
  hasChatSessions : Bool
  files : List TranscriptFile
deriving Repr, DecidableEq

/-- The scanned root (`.../Code/User/workspaceStorage`). -/
abbrev Disk := List WorkspaceSlot

/-- The fixed workspace-storage root path. -/
def wsStorageRoot : FPath :=
  ["home", "AppData", "Roaming", "Code", "User", "workspaceStorage"]

/-- Absolute path of a transcript file. -/
def sessionPathOf (slot : WorkspaceSlot) (f : TranscriptFile) : FPath :=
  wsStorageRoot ++ [slot.slotName, "chatSessions", f.name]

/-- `chatSessionsPath` of a slot. -/
def chatSessionsDirOf (slot : WorkspaceSlot) : FPath :=
  wsStorageRoot ++ [slot.slotName, "chatSessions"]

/-- Split a character list at `/` separators (the behaviour of
`String.splitOn "/"`, written structurally). `acc` holds the current
component, reversed. -/
def splitSlash : List Char → List Char → List String
  | [], acc => [⟨acc.reverse⟩]
  | c :: rest, acc =>
    if c = '/' then ⟨acc.reverse⟩ :: splitSlash rest []
    else splitSlash rest (c :: acc)

/-- `uriToPath` (`extension.ts:700-712`): strip a `file://` scheme and
split into components; other strings are taken as paths directly. -/
def uriToPath (uri : String) : FPath :=
  let cs := if startsSeq "file://".data uri.data then uri.data.drop 7
    else uri.data
  (splitSlash cs []).filter fun c => c ≠ ""

/-- An open workspace folder of the host (used by
`findWorkspaceInRecentList`). -/
structure OpenFolder where
  name : String
  fsPath : FPath
deriving Repr, DecidableEq

/-- Environment the scanner's workspace-identity fallbacks consult:
the host's currently open folders and the outcome of the
conventional-directory search (`searchWorkspaceByName`), which walks
directories outside the embedded state. -/
structure ScanEnv where
  openFolders : List OpenFolder
  searchByName : String → Option FPath

/-- `findWorkspaceInRecentList` (`extension.ts:714-740`): match the open
folders by basename or by name. -/
def findWorkspaceInRecentList (env : ScanEnv) (workspaceName : String) :
    Option FPath :=
  (env.openFolders.find? fun folder =>
    folder.fsPath.getLastD "" = workspaceName || folder.name = workspaceName
  ).map (·.fsPath)

/-- Workspace identity resolution of the full scan
(`extension.ts:605-642`): the slot's `workspace.json` folder, else the
open-folder list, else the conventional-directory search, else a
truncated slot id with no path. -/
def resolveWorkspace (env : ScanEnv) (slot : WorkspaceSlot) :
    String × Option FPath :=
  let defaultName := jsTake 8 slot.slotName ++ "..."
  match slot.folderUri? with
  | some f =>
    let wp := uriToPath f
    if wp ≠ [] then (wp.getLastD "", some wp) else (defaultName, none)
  | none =>
    match findWorkspaceInRecentList env defaultName with
    | some wp => (defaultName, some wp)
    | none =>
      match env.searchByName defaultName with
      | some wp => (defaultName, some wp)
      | none => (defaultName, none)

/-- Per-file step shared by both scanners (`extension.ts:647-690` and
`242-272`): skip parse failures and zero-turn transcripts, otherwise
build the session record. -/
def scanFile (workspaceName : String) (workspacePath? : Option FPath)
    (slot : WorkspaceSlot) (f : TranscriptFile) : Option ChatSession :=
  match f.parsed? with
  | none => none
  | some d =>
    if zeroTurns d then none
    else
      some
        { id := basenameStrip f.name ".json"
          customTitle? := deriveCustomTitle d
          workspaceName := workspaceName
          workspacePath? := workspacePath?
          lastModified := f.mtime
          filePath := sessionPathOf slot f
          messageCount := messageCountOf d
          storageRoot := chatSessionsDirOf slot }

/-- The slot loop shared by both scanners, parameterised by the
workspace-identity resolution in use. -/
def scanWith (res : WorkspaceSlot → String × Option FPath) (disk : Disk) :
    List ChatSession :=
  disk.flatMap fun slot =>
    if slot.hasChatSessions then
      (slot.files.filter fun f => strEnds f.name ".json").filterMap
        (scanFile (res slot).1 (res slot).2 slot)
    else []

/-- The full scan `scanForChatSessions` (`extension.ts:587-698`). -/
def scanForChatSessions (env : ScanEnv) (disk : Disk) : List ChatSession :=
  scanWith (resolveWorkspace env) disk

/-- Workspace identity resolution of the background scan
(`extension.ts:228-239`): only `workspace.json`, no fallbacks. -/
def resolveWorkspaceBg (slot : WorkspaceSlot) : String × Option FPath :=
  let defaultName := jsTake 8 slot.slotName ++ "..."
  match slot.folderUri? with
  | some f =>
    let wp := uriToPath f
    if wp ≠ [] then (wp.getLastD "", some wp) else (defaultName, none)
  | none => (defaultName, none)

/-- The incremental background scan's final session list
(`startBackgroundScan`, `extension.ts:197-296`), sorted most recent
first as on completion (`Array.prototype.sort` is stable; the stable
sort is modelled by `insertionSort`). -/
def backgroundScanSessions (disk : Disk) : List ChatSession :=
  (scanWith resolveWorkspaceBg disk).insertionSort fun a b =>
    b.lastModified ≤ a.lastModified

/-- `listAllChatSessions` (`extension.ts:578-585`): return the cache
unless it is empty or a fresh scan is forced. -/
def listAllChatSessions (force : Bool) (cache : List ChatSession)
    (env : ScanEnv) (disk : Disk) : List ChatSession :=
  if !force && !cache.isEmpty then cache else scanForChatSessions env disk

/-! ## File-system model for the archive engine -/

/-- Metadata sidecar contents (`extension.ts:84-89`). -/
structure ArchiveMeta where
  originalPath : FPath
  sessionId : String
  workspaceName? : Option String
  archivedAt : Nat
deriving Repr, DecidableEq

/-- Typed file contents: a transcript, an archive sidecar, or a
workspace descriptor (`workspace.json`, carrying its truthy `folder`
field or `none`). -/
inductive FData where
  | transcript (d : SessionData)
  | sidecar (m : ArchiveMeta)
  | wsJson (folder? : Option String)
deriving Repr, DecidableEq

/-- A file entry: path, contents, modification time. -/
abbrev FEntry := FPath × FData × Nat

/-- A file system: files plus existing directories. -/
structure FS where
  files : List FEntry
  dirs : List FPath
deriving Repr, DecidableEq

/-- Look a path up among the files. -/
def assocFind (p : FPath) : List FEntry → Option (FData × Nat)
  | [] => none
  | (q, d, t) :: rest => if q = p then some (d, t) else assocFind p rest

/-- `fs.existsSync` on a file path. -/
def FS.fileAt (fs : FS) (p : FPath) : Option (FData × Nat) :=
  assocFind p fs.files

def FS.fileExists (fs : FS) (p : FPath) : Bool := (fs.fileAt p).isSome

def FS.dirExists (fs : FS) (p : FPath) : Bool := fs.dirs.contains p

/-- Write (create or replace) a file. -/
def FS.writeFile (fs : FS) (p : FPath) (d : FData) (t : Nat) : FS :=
  { fs with files := (p, d, t) :: fs.files.filter fun e => e.1 ≠ p }

/-- `fs.promises.unlink`. -/
def FS.unlink (fs : FS) (p : FPath) : FS :=
  { fs with files := fs.files.filter fun e => e.1 ≠ p }

/-- `ensureDir` (`extension.ts:40-46`): create the directory (errors
ignored). -/
def FS.mkdirp (fs : FS) (p : FPath) : FS :=
  { fs with dirs := if fs.dirs.contains p then fs.dirs else p :: fs.dirs }

/-- `dir` is a strict ancestor of `p`. -/
def isUnder (dir p : FPath) : Bool :=
  dir.length < p.length && p.take dir.length = dir

/-- `fs.promises.rmdir(p, {recursive: true})`: remove the directory,
everything beneath it, and any files beneath it. -/
def FS.rmdirRec (fs : FS) (p : FPath) : FS :=
  { files := fs.files.filter fun e => ¬ isUnder p e.1
    dirs := fs.dirs.filter fun d => ¬ (d = p ∨ isUnder p d) }

/-- The name of `p` when `p` is a direct child of `dir`. -/
def childNameOf (dir p : FPath) : Option String :=
  if p.dropLast = dir ∧ p ≠ [] then p.getLast? else none

/-- `fs.readdirSync(dir)`: names of directory children, files and
subdirectories alike. -/
def FS.readdirNames (fs : FS) (dir : FPath) : List String :=
  (fs.files.filterMap fun e => childNameOf dir e.1) ++
    (fs.dirs.filterMap fun d => childNameOf dir d)

/-- Names of the file children of `dir`
(`readdirSync` filtered by `isFile`). -/
def FS.fileNamesIn (fs : FS) (dir : FPath) : List String :=
  fs.files.filterMap fun e => childNameOf dir e.1

/-- Names of the subdirectories of `dir`
(`readdirSync` filtered by `isDirectory`). -/
def FS.subdirNamesIn (fs : FS) (dir : FPath) : List String :=
  fs.dirs.filterMap fun d => childNameOf dir d

/-- `moveFileTo(dest, src)` (`extension.ts:48-62`): ensure the
destination directory and rename; a rename over an existing destination
replaces it. A missing source throws — the model leaves the directory
created and the files unchanged (callers catch the error). -/
def FS.moveFileTo (fs : FS) (dest src : FPath) : FS :=
  let fs := fs.mkdirp dest.dropLast
  match fs.fileAt src with
  | some (d, t) => (fs.unlink src).writeFile dest d t
  | none => fs

/-- Sidecar path: `destPath + '.meta.json'` (string concatenation on
the final component). -/
def metaPathOf (p : FPath) : FPath :=
  p.dropLast ++ [p.getLastD "" ++ ".meta.json"]

/-! ## Archive engine (`extension.ts`) -/

/-- Characters `sanitizeFileName` replaces. -/
def isForbiddenFileChar (c : Char) : Bool :=
  c = '\\' || c = '/' || c = ':' || c = '*' || c = '?' || c = '"' ||
    c = '<' || c = '>' || c = '|'

/-- `sanitizeFileName` (`chatMarkdown.ts`): replace forbidden
characters, trim, default empty results, cap at 255 characters. -/
def sanitizeFileName (name : String) : String :=
  let sanitized :=
    jsTrim ⟨name.data.map fun c => if isForbiddenFileChar c then '_' else c⟩
  let sanitized := if sanitized = "" then "chat-session" else sanitized
  if 255 < jsLen sanitized then jsTake 255 sanitized else sanitized

/-- `resolveSessionFilePath` (`sessionFiles.ts`): reject empty path
metadata and paths outside the storage root. Canonical symlink-free
paths are assumed, so `realpath` is the identity and the
`path.relative` containment test is componentwise prefixing. -/
def resolveSessionFilePath (session : ChatSession) : Option FPath :=
  if session.filePath = [] ∨ session.storageRoot = [] then none
  else if session.filePath.take session.storageRoot.length =
      session.storageRoot then some session.filePath
  else none

/-- In-memory undo record (`extension.ts:34-38`). -/
structure ArchiveEntry where
  originalPath : FPath
  archivePath : FPath
  sessionId : String
deriving Repr, DecidableEq

/-- `moveSessionToArchive` (`extension.ts:64-102`): compute the
per-workspace archive directory, resolve the source path, suffix the
destination with the current timestamp on collision, move the file and
write the sidecar. `none` models the thrown `SessionFileError` /
rename failure. `baseRoot` is the extension's global-storage path and
`now` is `Date.now()`. -/
def moveSessionToArchive (fs : FS) (session : ChatSession) (now : Nat)
    (baseRoot : FPath) : Option (FS × ArchiveEntry) :=
  let workspaceDirName := sanitizeFileName
    (if session.workspaceName = "" then "unknown-workspace"
     else session.workspaceName)
  let archiveDir := baseRoot ++ ["archive", workspaceDirName]
  let fs := fs.mkdirp archiveDir
  match resolveSessionFilePath session with
  | none => none
  | some srcPath =>
    let baseName := srcPath.getLastD ""
    let destPath :=
      if fs.fileExists (archiveDir ++ [baseName]) then
        archiveDir ++ [baseName ++ "." ++ toString now]
      else archiveDir ++ [baseName]
    if fs.fileExists srcPath then
      let fs := fs.moveFileTo destPath srcPath
      let meta : ArchiveMeta :=
        { originalPath := srcPath
          sessionId := session.id
          workspaceName? :=
            if session.workspaceName = "" then none
            else some session.workspaceName
          archivedAt := now }
      let fs := fs.writeFile (metaPathOf destPath) (.sidecar meta) now
      some (fs, { originalPath := srcPath, archivePath := destPath,
                  sessionId := session.id })
    else none

/-- `restoreArchivedEntries` (`extension.ts:104-122`): per entry, ensure
the target directory, disambiguate with `.restored.<now>` when the
original path is occupied, and move the archived file back. -/
def restoreArchivedEntries (fs : FS) (entries : List ArchiveEntry)
    (now : Nat) : FS :=
  entries.foldl
    (fun fs entry =>
      let targetDir := entry.originalPath.dropLast
      let fs := fs.mkdirp targetDir
      let restorePath :=
        if fs.fileExists entry.originalPath then
          let base := entry.originalPath.getLastD ""
          let ext := extnameOf base
          let name := basenameStrip base ext
          targetDir ++ [name ++ ".restored." ++ toString now ++ ext]
        else entry.originalPath
      fs.moveFileTo restorePath entry.archivePath)
    fs

/-- `removeEmptyArchiveWorkspace` (`extension.ts:125-137`): remove the
archive workspace directory when no non-sidecar `.json` child
remains. -/
def removeEmptyArchiveWorkspace (fs : FS) (workspacePath : FPath) : FS :=
  if ¬ fs.dirExists workspacePath then fs
  else
    let files := fs.readdirNames workspacePath
    let hasConversations := files.any fun f =>
      strEnds f ".json" && !strEnds f ".meta.json"
    if hasConversations then fs else fs.rmdirRec workspacePath

/-- Result of the restore command: the file system, the session record
pushed into the cache (when reconstruction succeeded), and the id added
to the skip-list (when the sidecar carried one). -/
structure RestoreResult where
  fs : FS
  restored? : Option ChatSession
  skipAdded? : Option String
deriving Repr, DecidableEq

/-- Rebuild the restored session record (`extension.ts:1616-1658`):
re-parse the restored transcript, re-derive the title, and infer the
workspace from the `workspace.json` beside the restored location
(`'Unknown'` otherwise). `none` models the caught reconstruction
error (missing or unparsable file). -/
def rebuildRestoredSession (fs : FS) (originalPath : FPath) :
    Option ChatSession :=
  match fs.fileAt originalPath with
  | some (.transcript d, mt) =>
    let chatSessionsPath := originalPath.dropLast
    let workspaceDir := chatSessionsPath.dropLast
    let ws :=
      match fs.fileAt (workspaceDir ++ ["workspace.json"]) with
      | some (.wsJson (some f), _) =>
        if f ≠ "" then
          let wp := uriToPath f
          if wp ≠ [] then (wp.getLastD "", some wp)
          else ("Unknown", none)
        else ("Unknown", none)
      | _ => ("Unknown", none)
    some
      { id := basenameStrip (originalPath.getLastD "") ".json"
        customTitle? := deriveCustomTitle d
        workspaceName := ws.1
        workspacePath? := ws.2
        lastModified := mt
        filePath := originalPath
        messageCount := messageCountOf d
        storageRoot := chatSessionsPath }
  | _ => none

/-- The `restoreArchivedSession` command (`extension.ts:1586-1684`) for
an archived file with a sidecar: move the file back to the recorded
original path (no occupancy check — an existing file there is replaced
by the rename), delete the sidecar, rebuild the cache record, add the
recorded id to the skip-list, and prune the now-possibly-empty archive
workspace directory. Without a sidecar the command asks the user for a
destination; that interactive path is modelled as an abort. -/
def restoreArchivedSession (fs : FS) (archivedPath : FPath) :
    RestoreResult :=
  let metaPath := metaPathOf archivedPath
  match fs.fileAt metaPath with
  | some (.sidecar m, _) =>
    let originalPath := m.originalPath
    let fs := fs.moveFileTo originalPath archivedPath
    let fs := if fs.fileExists metaPath then fs.unlink metaPath else fs
    let restored? := rebuildRestoredSession fs originalPath
    let skipAdded? := if m.sessionId ≠ "" then some m.sessionId else none
    let fs := removeEmptyArchiveWorkspace fs archivedPath.dropLast
    { fs := fs, restored? := restored?, skipAdded? := skipAdded? }
  | _ => { fs := fs, restored? := none, skipAdded? := none }

/-- The `deleteArchivedSession` command (`extension.ts:1687-1716`),
confirmation accepted: unlink the archived file (a missing file throws,
skipping the rest), unlink its sidecar, prune the workspace
directory. -/
def deleteArchivedSession (fs : FS) (archivedPath : FPath) : FS :=
  if fs.fileExists archivedPath then
    let workspacePath := archivedPath.dropLast
    let fs := fs.unlink archivedPath
    let metaPath := metaPathOf archivedPath
    let fs := if fs.fileExists metaPath then fs.unlink metaPath else fs
    removeEmptyArchiveWorkspace fs workspacePath
  else fs

/-- Target directories of the `emptyArchive` command
(`extension.ts:1749`): all archive groups, or the chosen one. -/
def emptyArchiveTargetDirs (fs : FS) (baseRoot : FPath)
    (scope : Option String) : List FPath :=
  let archiveRoot := baseRoot ++ ["archive"]
  match scope with
  | none => (fs.subdirNamesIn archiveRoot).map fun g => archiveRoot ++ [g]
  | some g => [archiveRoot ++ [g]]

/-- The `emptyArchive` command (`extension.ts:1719-1815`), prompts
answered (scope, optional age cutoff, confirmation) and not cancelled:
collect the matching `.json` files of the target directories, delete
them with their sidecars, then prune each target directory. -/
def emptyArchive (fs : FS) (baseRoot : FPath) (scope : Option String)
    (cutoff? : Option Int) : FS :=
  let targetDirs := emptyArchiveTargetDirs fs baseRoot scope
  let filesToDelete := targetDirs.flatMap fun dir =>
    if fs.dirExists dir then
      ((fs.fileNamesIn dir).filter fun n => strEnds n ".json").filterMap
        fun n =>
          let fp := dir ++ [n]
          match cutoff? with
          | some cutoff =>
            match fs.fileAt fp with
            | some (_, mt) => if (mt : Int) < cutoff then some fp else none
            | none => none
          | none => some fp
    else []
  let fs := filesToDelete.foldl
    (fun fs fp =>
      let fs := fs.unlink fp
      let meta := metaPathOf fp
      if fs.fileExists meta then fs.unlink meta else fs)
    fs
  targetDirs.foldl removeEmptyArchiveWorkspace fs

/-- `purgeArchiveOlderThan` (`extension.ts:1818-1852`): within every
archive group, delete (with sidecar) each `.json` file older than the
retention cutoff. No directory pruning happens here. -/
def purgeArchiveOlderThan (fs : FS) (baseRoot : FPath) (days : Nat)
    (now : Nat) : FS :=
  let archiveRoot := baseRoot ++ ["archive"]
  if ¬ fs.dirExists archiveRoot then fs
  else
    let cutoff : Int := (now : Int) - (days : Int) * 86400000
    let groups := (fs.subdirNamesIn archiveRoot).map fun g =>
      archiveRoot ++ [g]
    groups.foldl
      (fun fs dir =>
        ((fs.fileNamesIn dir).filter fun n => strEnds n ".json").foldl
          (fun fs n =>
            let fp := dir ++ [n]
            match fs.fileAt fp with
            | some (_, mt) =>
              if (mt : Int) < cutoff then
                let fs := fs.unlink fp
                let meta := metaPathOf fp
                if fs.fileExists meta then fs.unlink meta else fs
              else fs
            | none => fs)
          fs)
      fs

/-! ## Skip-list (`extension.ts:1854-1893`) -/

/-- `addToSkipAutoArchive`: idempotent append. -/
def addToSkipAutoArchive (skipList : List String) (sessionId : String) :
    List String :=
  if skipList.contains sessionId then skipList else skipList ++ [sessionId]

/-- `removeFromSkipAutoArchive`: idempotent delete. -/
def removeFromSkipAutoArchive (skipList : List String)
    (sessionId : String) : List String :=
  skipList.filter fun id => id ≠ sessionId

/-- `isSkipAutoArchive`. -/
def isSkipAutoArchive (skipList : List String) (sessionId : String) :
    Bool :=
  skipList.contains sessionId

/-- `cleanupSkipAutoArchiveList`: drop ids absent from a forced fresh
scan. -/
def cleanupSkipAutoArchiveList (skipList : List String)
    (env : ScanEnv) (disk : Disk) : List String :=
  let existingIds := (scanForChatSessions env disk).map (·.id)
  skipList.filter fun id => existingIds.contains id

/-! ## Auto-archive-by-overflow (`runAutoArchiveNow`,
`extension.ts:1896-1988`) -/

/-- `copilotChatHistory.autoArchive.action`. -/
inductive ArchiveAction where
  | archive
  | delete
deriving Repr, DecidableEq

/-- `copilotChatHistory.autoArchive.scope`. -/
inductive ArchiveScope where
  | allWorkspaces
  | currentWorkspace
deriving Repr, DecidableEq

/-- Effective auto-archive settings (after the `|| default`
fallbacks the code applies when reading the configuration). -/
structure AutoArchiveConfig where
  enabled : Bool
  maxSessions : Nat
  action : ArchiveAction
  scope : ArchiveScope
deriving Repr

/-- The grouping key `s.workspaceName || 'unknown'`
(`extension.ts:1921`). -/
def workspaceKey (s : ChatSession) : String :=
  if s.workspaceName = "" then "unknown" else s.workspaceName

/-- Append a session to its group, preserving JS `Map` insertion
order. -/
def insertGrouped (k : String) (s : ChatSession) :
    List (String × List ChatSession) → List (String × List ChatSession)
  | [] => [(k, [s])]
  | (k', l) :: rest =>
    if k' = k then (k', l ++ [s]) :: rest
    else (k', l) :: insertGrouped k s rest

/-- Group sessions by `workspaceKey` (`extension.ts:1918-1925`). -/
def groupByWorkspace (sessions : List ChatSession) :
    List (String × List ChatSession) :=
  sessions.foldl (fun acc s => insertGrouped (workspaceKey s) s acc) []

/-- Ascending stable sort by `lastModified` (`extension.ts:1930`;
`Array.prototype.sort` is stable, modelled by `insertionSort`). -/
def sortByMtime (sessions : List ChatSession) : List ChatSession :=
  sessions.insertionSort fun a b => a.lastModified ≤ b.lastModified

/-- The per-workspace overflow (`extension.ts:1927-1934`): when a group
has more sessions than the maximum, the oldest excess ones. -/
def overflowOf (maxSessions : Nat) (arr : List ChatSession) :
    List ChatSession :=
  (sortByMtime arr).take (arr.length - maxSessions)

/-- The `currentWorkspace` scope filter (`extension.ts:1908-1917`). -/
def scopeFilter (currentFolder? : Option OpenFolder)
    (sessions : List ChatSession) : List ChatSession :=
  match currentFolder? with
  | some cur =>
    let current := cur.fsPath.getLastD ""
    sessions.filter fun s =>
      (match s.workspacePath? with
       | some wp => wp.getLastD "" = current
       | none => false) || s.workspaceName = current
  | none => []

/-- `runAutoArchiveNow` (`extension.ts:1896-1988`), not cancelled,
every per-item action succeeding: force a fresh scan, apply the scope,
group by workspace, and process each overflowing group's oldest excess
sessions, skipping ids on the skip-list. Returns the sessions actually
processed (archived or deleted per the configured action), in
processing order. -/
def runAutoArchiveNow (cfg : AutoArchiveConfig) (skipList : List String)
    (cache : List ChatSession) (env : ScanEnv) (disk : Disk)
    (currentFolder? : Option OpenFolder) : List ChatSession :=
  if ¬ cfg.enabled then []
  else
    let sessions := listAllChatSessions true cache env disk
    let sessions :=
      match cfg.scope with
      | .currentWorkspace => scopeFilter currentFolder? sessions
      | .allWorkspaces => sessions
    let workspacesToProcess :=
      (groupByWorkspace sessions).filterMap fun g =>
        if g.2.length > cfg.maxSessions then
          some (g.1, overflowOf cfg.maxSessions g.2)
        else none
    workspacesToProcess.flatMap fun g =>
      g.2.filter fun s => ¬ isSkipAutoArchive skipList s.id

/-! ## Lock store and leader election (`extension.ts:2019-2197`) -/

/-- The persisted lock record. -/
structure LockRecord where
  ownerId : String
  lastHeartbeat : Nat
deriving Repr, DecidableEq

/-- Outcome of an acquisition attempt: whether it reported success and
whether it wrote the lock file. -/
structure AcquireOutcome where
  success : Bool
  wrote : Bool
deriving Repr, DecidableEq

/-- `now - (current.lastHeartbeat || 0)` in `Int` (JS numbers can go
negative here). -/
def lockAge (now : Nat) (r : LockRecord) : Int :=
  (now : Int) - (r.lastHeartbeat : Int)

/-- `tryAcquireMaster` (`extension.ts:2048-2071`). `current` is the
lock record read first; `rereadAfterWrite` is what a subsequent read
returns after this process writes (a concurrent writer may have
clobbered the file, so it need not be this process's record). -/
def tryAcquireMaster (instanceId : String) (current : Option LockRecord)
    (rereadAfterWrite : Option LockRecord) (now : Nat)
    (lockTTLSeconds : Nat) : AcquireOutcome :=
  match current with
  | none =>
    match rereadAfterWrite with
    | some r => ⟨r.ownerId = instanceId, true⟩
    | none => ⟨false, true⟩
  | some r =>
    if lockAge now r > (lockTTLSeconds : Int) * 1000 then
      match rereadAfterWrite with
      | some r2 => ⟨r2.ownerId = instanceId, true⟩
      | none => ⟨false, true⟩
    else ⟨false, false⟩

/-- Job-enablement settings read by `startAsMaster`. -/
structure MasterConfig where
  autoArchiveEnabled : Bool
  autoPurgeEnabled : Bool
deriving Repr, DecidableEq

/-- Per-process election state: the `isMaster` flag and which timers
(heartbeat, scheduled auto-archive, scheduled purge) are running. -/
structure ProcState where
  isMaster : Bool
  heartbeatRunning : Bool
  archiveTimerRunning : Bool
  purgeTimerRunning : Bool
deriving Repr, DecidableEq

/-- `startAsMaster` (`extension.ts:2091-2122`): a no-op when already
master; otherwise set the flag and start the scheduled jobs that are
enabled. -/
def startAsMaster (cfg : MasterConfig) (st : ProcState) : ProcState :=
  if st.isMaster then st
  else
    { st with
      isMaster := true
      archiveTimerRunning := cfg.autoArchiveEnabled
      purgeTimerRunning := cfg.autoPurgeEnabled }

/-- `stopBeingMaster` (`extension.ts:2124-2130`): clear the flag, both
scheduled jobs, and the heartbeat. -/
def stopBeingMaster (_st : ProcState) : ProcState :=
  { isMaster := false, heartbeatRunning := false,
    archiveTimerRunning := false, purgeTimerRunning := false }

/-- One tick of the election poll loop (`extension.ts:2168-2196`),
leader election enabled and scope not `currentWorkspace`. `lock` is the
record read at the start of the tick; `rereadAfterWrite` feeds any
acquisition attempt inside the tick. -/
def monitorTick (cfg : MasterConfig) (instanceId : String)
    (st : ProcState) (lock : Option LockRecord)
    (rereadAfterWrite : Option LockRecord) (now : Nat)
    (lockTTLSeconds : Nat) : ProcState :=
  let acquireBranch : ProcState :=
    let got := tryAcquireMaster instanceId lock rereadAfterWrite now
      lockTTLSeconds
    if got.success then
      let st := { st with heartbeatRunning := true }
      if ¬ st.isMaster then startAsMaster cfg st else st
    else st
  match lock with
  | some l =>
    if l.ownerId = instanceId then
      let st := { st with heartbeatRunning := true }
      if ¬ st.isMaster then startAsMaster cfg st else st
    else if lockAge now l > (lockTTLSeconds : Int) * 1000 then
      acquireBranch
    else if st.isMaster then stopBeingMaster st
    else st
  | none => acquireBranch

/-! ## History tree `getChildren` (`extension.ts:444-477`) -/

/-- A workspace group node of the history tree. -/
structure WorkspaceGroup where
  workspaceName : String
  workspacePath? : Option FPath
  sessions : List ChatSession
deriving Repr, DecidableEq

/-- `matchesFilter` (`extension.ts:308-315`); `filter` is the stored,
already lower-cased search filter. -/
def matchesFilter (filter : String) (s : ChatSession) : Bool :=
  if filter = "" then true
  else
    let title := match s.customTitle? with
      | some t => if t ≠ "" then t else "Untitled Session"
      | none => "Untitled Session"
    strIncludes (lowerStr title) filter

/-- The `'Load More'` placeholder row (`extension.ts:459-468`). -/
def loadMorePlaceholder (g : WorkspaceGroup) (moreCount : Nat) :
    ChatSession :=
  { id := "__loadmore__" ++ g.workspaceName
    customTitle? := some ("📁 Load More (" ++ toString moreCount ++
      " more conversation" ++ (if moreCount ≠ 1 then "s" else "") ++ ")")
    workspaceName := g.workspaceName
    workspacePath? := g.workspacePath?
    lastModified := 0
    filePath := []
    messageCount := moreCount
    storageRoot := [] }

/-- `getChildren` on a workspace group (`extension.ts:448-472`):
filter, truncate to 20 for collapsed workspaces, and append the
`'Load More'` placeholder when sessions were held back. -/
def getChildrenOfGroup (expandedWorkspaces : List String)
    (filter : String) (g : WorkspaceGroup) : List ChatSession :=
  let allFilteredSessions := g.sessions.filter (matchesFilter filter)
  let isExpanded := expandedWorkspaces.contains g.workspaceName
  let sessionsToShow :=
    if isExpanded then allFilteredSessions
    else allFilteredSessions.take 20
  if ¬ isExpanded ∧ allFilteredSessions.length > 20 then
    sessionsToShow ++
      [loadMorePlaceholder g (allFilteredSessions.length - 20)]
  else sessionsToShow

/-! ## Concrete inputs used by witnesses and counterexamples -/

/-- An environment with no open folders and an unsuccessful
conventional-directory search. -/
def trivialEnv : ScanEnv := ⟨[], fun _ => none⟩

/-- The title the C9 claim predicts for a transcript without an
explicit title: the first 50 characters of the first user turn's text
with newlines collapsed to spaces, with an ellipsis appended iff that
truncation lost characters. (Stated from the claim's words, for
comparison with the code's derivation.) -/
def claimedDerivedTitle (txt : String) : String :=
  let collapsed := collapseNewlines txt
  jsTake 50 collapsed ++ (if 50 < jsLen collapsed then "..." else "")

/-- 30 `a`s followed by 21 spaces: 51 characters, of which the trailing
whitespace is trimmed by the code before truncation. -/
def c9txt : String := "aaaaaaaaaaaaaaaaaaaaaaaaaaaaaa                     "

def c9data : SessionData := ⟨none, some [⟨some c9txt⟩]⟩

def c9slot : WorkspaceSlot :=
  ⟨"guid0001", some "file:///ws/proj", true, [⟨"abc.json", some c9data, 3⟩]⟩

/-- The session record the full scan produces for `c9slot`. -/
def c9session : ChatSession :=
  ⟨"abc", deriveCustomTitle c9data, "proj", some ["ws", "proj"], 3,
    sessionPathOf c9slot ⟨"abc.json", some c9data, 3⟩, 1,
    chatSessionsDirOf c9slot⟩

/-- A transcript whose `requests` array is empty (zero turns). -/
def c8emptyFile : TranscriptFile := ⟨"empty.json", some ⟨some "t", some []⟩, 1⟩

/-- A transcript with one turn. -/
def c8fullFile : TranscriptFile :=
  ⟨"full.json", some ⟨none, some [⟨some "hello"⟩]⟩, 2⟩

def c8slot : WorkspaceSlot := ⟨"guid0002", none, true, [c8emptyFile, c8fullFile]⟩

/-- Path of a live transcript used in the archive round-trip claims. -/
def c2path : FPath := ["ws", "slot1", "chatSessions", "abc.json"]

def c2fd : FData := .transcript ⟨none, some [⟨some "hi"⟩]⟩

def c2session : ChatSession :=
  ⟨"abc", none, "proj", none, 7, c2path, 1, ["ws", "slot1", "chatSessions"]⟩

def c2fs : FS := ⟨[(c2path, c2fd, 7)], [["gs"]]⟩

/-- Original path recorded in the C3 scenario's sidecar. -/
def c3orig : FPath := ["ws", "slot2", "chatSessions", "abc123.json"]

/-- The archived file in the quarantine. -/
def c3arch : FPath := ["gs", "archive", "proj", "abc123.json"]

def c3archived : FData := .transcript ⟨some "archived copy", some [⟨some "x"⟩]⟩

def c3occupant : FData := .transcript ⟨some "occupant", some [⟨some "y"⟩]⟩

def c3meta : ArchiveMeta := ⟨c3orig, "abc123", some "proj", 50⟩

/-- Quarantine holding `abc123.json` with its sidecar, while a
different file already sits at the recorded original path. -/
def c3fs : FS :=
  ⟨[(c3arch, c3archived, 5), (metaPathOf c3arch, .sidecar c3meta, 5),
    (c3orig, c3occupant, 9)],
   [["gs"], ["gs", "archive"], ["gs", "archive", "proj"],
    ["ws", "slot2", "chatSessions"]]⟩

/-- The undo entry corresponding to the same archived file. -/
def c3entry : ArchiveEntry := ⟨c3orig, c3arch, "abc123"⟩

/-- Transcript data for the C4 round-trip counterexample. -/
def c4data : SessionData := ⟨none, some [⟨some "hello"⟩]⟩

/-- A slot without a `workspace.json` descriptor. -/
def c4slot : WorkspaceSlot :=
  ⟨"guid00034567", none, true, [⟨"s1.json", some c4data, 7⟩]⟩

/-- The record the scanner produces for `c4slot` (checked by the C4
counterexample): the workspace is labeled with the truncated slot
id. -/
def c4s : ChatSession :=
  ⟨"s1", some "hello", "guid0003...", none, 7,
   wsStorageRoot ++ ["guid00034567", "chatSessions", "s1.json"], 1,
   wsStorageRoot ++ ["guid00034567", "chatSessions"]⟩

def c4fs : FS :=
  ⟨[(wsStorageRoot ++ ["guid00034567", "chatSessions", "s1.json"],
     .transcript c4data, 7)], [["gs"]]⟩

/-- Workspace name carried by the record rebuilt after archiving `c4s`
and restoring it from the quarantine. -/
def c4roundtripName : Option String :=
  match moveSessionToArchive c4fs c4s 100 ["gs"] with
  | some (fs1, entry) =>
    ((restoreArchivedSession fs1 entry.archivePath).restored?).map
      (·.workspaceName)
  | none => none

/-- Round-trip witness inputs: same transcript, but the slot's
`workspace.json` resolves to the folder `proj`. -/
def c4wsession : ChatSession :=
  ⟨"abc", some "hi", "proj", some ["ws", "proj"], 7, c2path, 1,
   ["ws", "slot1", "chatSessions"]⟩

def c4wfs : FS :=
  ⟨[(c2path, .transcript ⟨none, some [⟨some "hi"⟩]⟩, 7),
    (["ws", "slot1", "workspace.json"], .wsJson (some "file:///ws/proj"),
     3)],
   [["gs"]]⟩

/-- Auto-archive configuration for the C1 witness: threshold 1,
archive action, all workspaces. -/
def c1cfg : AutoArchiveConfig := ⟨true, 1, .archive, .allWorkspaces⟩

def c1data1 : SessionData := ⟨none, some [⟨some "m1"⟩]⟩

def c1data2 : SessionData := ⟨none, some [⟨some "m2"⟩]⟩

def c1data3 : SessionData := ⟨none, some [⟨some "m3"⟩]⟩

/-- One workspace slot holding three one-turn transcripts with
modification times 30, 10 and 20. -/
def c1slot : WorkspaceSlot :=
  ⟨"slotC1", some "file:///ws/proj", true,
   [⟨"a.json", some c1data1, 30⟩, ⟨"b.json", some c1data2, 10⟩,
    ⟨"c.json", some c1data3, 20⟩]⟩

def c1disk : Disk := [c1slot]

def c1rec (name : String) (d : SessionData) (mtime : Nat) : ChatSession :=
  ⟨basenameStrip name ".json", deriveCustomTitle d, "proj",
   some ["ws", "proj"], mtime,
   wsStorageRoot ++ ["slotC1", "chatSessions", name], 1,
   wsStorageRoot ++ ["slotC1", "chatSessions"]⟩

/-- The `proj` group of the scan of `c1disk`, in scan order. -/
def c1arr : List ChatSession :=
  [c1rec "a.json" c1data1 30, c1rec "b.json" c1data2 10,
   c1rec "c.json" c1data3 20]

/-- The C7 invariant at one quarantine subdirectory: if the directory
still exists, it still contains some transcript `.json` child
(sidecars aside). Equivalently: a directory emptied of transcripts has
been removed. -/
def quarantineInv (fs : FS) (dir : FPath) : Prop :=
  fs.dirExists dir = true →
  (fs.readdirNames dir).any
    (fun f => strEnds f ".json" && !strEnds f ".meta.json") = true

/-- Quarantine workspace directory for the C7 purge counterexample. -/
def c7dir : FPath := ["gs", "archive", "proj"]

def c7file : FPath := ["gs", "archive", "proj", "a.json"]

/-- Quarantine with a single old archived transcript and its sidecar. -/
def c7fs : FS :=
  ⟨[(c7file, .transcript ⟨none, some [⟨some "x"⟩]⟩, 0),
    (metaPathOf c7file,
      .sidecar ⟨["ws", "s", "chatSessions", "a.json"], "a", some "proj", 0⟩,
      0)],
   [["gs"], ["gs", "archive"], c7dir]⟩

/-! ## File-system lemmas -/

theorem assocFind_erase (p q : FPath) :
    ∀ l : List FEntry,
      assocFind q (l.filter fun e => e.1 ≠ p) =
        if q = p then none else assocFind q l
  | [] => by by_cases h : q = p <;> simp [assocFind, h]
  | e :: rest => by
    rcases e with ⟨r, d, t⟩
    have ih := assocFind_erase p q rest
    by_cases hr : r = p <;> by_cases hrq : r = q <;> by_cases hq : q = p <;>
      simp_all [List.filter_cons, assocFind]

theorem assocFind_rmfilter (p q : FPath) :
    ∀ l : List FEntry,
      assocFind q (l.filter fun e => ¬ isUnder p e.1) =
        if isUnder p q then none else assocFind q l
  | [] => by by_cases h : isUnder p q <;> simp [assocFind, h]
  | e :: rest => by
    rcases e with ⟨r, d, t⟩
    have ih := assocFind_rmfilter p q rest
    by_cases hr : isUnder p r <;> by_cases hrq : r = q <;>
        by_cases hq : isUnder p q <;>
      simp_all [List.filter_cons, assocFind]

theorem fileAt_writeFile (fs : FS) (p : FPath) (d : FData) (t : Nat)
    (q : FPath) :
    (fs.writeFile p d t).fileAt q =
      if q = p then some (d, t) else fs.fileAt q := by
  by_cases h : q = p
  · subst h
    simp [FS.writeFile, FS.fileAt, assocFind]
  · simp only [FS.writeFile, FS.fileAt, assocFind,
      if_neg (fun hpq : p = q => h hpq.symm), if_neg h]
    rw [assocFind_erase, if_neg h]

theorem fileAt_unlink (fs : FS) (p q : FPath) :
    (fs.unlink p).fileAt q = if q = p then none else fs.fileAt q := by
  simp only [FS.unlink, FS.fileAt]
  rw [assocFind_erase]

theorem fileAt_mkdirp (fs : FS) (p q : FPath) :
    (fs.mkdirp p).fileAt q = fs.fileAt q := rfl

theorem fileAt_rmdirRec (fs : FS) (p q : FPath) :
    (fs.rmdirRec p).fileAt q =
      if isUnder p q then none else fs.fileAt q := by
  simp only [FS.rmdirRec, FS.fileAt]
  rw [assocFind_rmfilter]

theorem fileAt_moveFileTo (fs : FS) (dest src : FPath)
    (d : FData) (t : Nat) (hsrc : fs.fileAt src = some (d, t)) (q : FPath) :
    (fs.moveFileTo dest src).fileAt q =
      if q = dest then some (d, t)
      else if q = src then none
      else fs.fileAt q := by
  simp only [FS.moveFileTo, fileAt_mkdirp, hsrc]
  rw [fileAt_writeFile, fileAt_unlink]
  by_cases h1 : q = dest
  · simp [h1]
  · by_cases h2 : q = src <;> simp [h1, h2, fileAt_mkdirp]

theorem dirExists_mkdirp (fs : FS) (p q : FPath) :
    (fs.mkdirp p).dirExists q = (q = p || fs.dirExists q) := by
  simp only [FS.mkdirp, FS.dirExists, List.contains, List.elem_eq_mem]
  by_cases h : p ∈ fs.dirs
  · by_cases hq : q = p <;> simp_all
  · by_cases hq : q = p <;> simp_all

theorem dirExists_rmdirRec (fs : FS) (p q : FPath) :
    (fs.rmdirRec p).dirExists q =
      if q = p ∨ isUnder p q then false else fs.dirExists q := by
  simp only [FS.rmdirRec, FS.dirExists, List.contains, List.elem_eq_mem,
    List.mem_filter]
  by_cases h : q = p ∨ isUnder p q
  · simp [h]
  · push_neg at h
    simp [h.1, h.2]

theorem strAppend_ne_self (s t : String) (ht : t ≠ "") : s ++ t ≠ s := by
  intro h
  have hlen := congrArg String.length h
  simp only [String.length_append] at hlen
  have h0 : t.length = 0 := by omega
  refine ht ?_
  cases t with
  | mk data =>
    cases data with
    | nil => rfl
    | cons c cs => simp [String.length] at h0

theorem metaPathOf_ne_self (p : FPath) : metaPathOf p ≠ p := by
  intro h
  have hlast := congrArg (fun q : FPath => q.getLastD "") h
  simp only at hlast
  have hmeta : (metaPathOf p).getLastD "" = p.getLastD "" ++ ".meta.json" := by
    simp [metaPathOf, List.getLastD_concat]
  rw [hmeta] at hlast
  exact strAppend_ne_self (p.getLastD "") ".meta.json" (by decide) hlast

/-! ## Claim C5: lock acquisition -/

/-- C5: `tryAcquireMaster` behaves as specified for every lock-file
state: with no record it claims the lock (a write happens) and succeeds
exactly when the re-read confirms this instance as owner; with a record
whose age exceeds the TTL it performs the same claim-then-reread; with
a fresh record owned by another instance it fails without writing. -/
theorem tryAcquireMaster_spec (instanceId : String)
    (current rereadAfterWrite : Option LockRecord) (now ttl : Nat) :
    (current = none →
      (tryAcquireMaster instanceId current rereadAfterWrite now ttl).wrote
          = true ∧
      ((tryAcquireMaster instanceId current rereadAfterWrite now
          ttl).success = true ↔
        ∃ r, rereadAfterWrite = some r ∧ r.ownerId = instanceId)) ∧
    (∀ r, current = some r → lockAge now r > (ttl : Int) * 1000 →
      (tryAcquireMaster instanceId current rereadAfterWrite now ttl).wrote
          = true ∧
      ((tryAcquireMaster instanceId current rereadAfterWrite now
          ttl).success = true ↔
        ∃ r2, rereadAfterWrite = some r2 ∧ r2.ownerId = instanceId)) ∧
    (∀ r, current = some r → lockAge now r ≤ (ttl : Int) * 1000 →
      r.ownerId ≠ instanceId →
      tryAcquireMaster instanceId current rereadAfterWrite now ttl =
        ⟨false, false⟩) := by
  refine ⟨?_, ?_, ?_⟩
  · rintro rfl
    cases rereadAfterWrite with
    | none => simp [tryAcquireMaster]
    | some r => simp [tryAcquireMaster]
  · rintro r rfl hstale
    cases rereadAfterWrite with
    | none => simp [tryAcquireMaster, if_pos hstale]
    | some r2 => simp [tryAcquireMaster, if_pos hstale]
  · rintro r rfl hfresh hother
    simp [tryAcquireMaster, if_neg (not_lt.mpr hfresh)]

/-- Witness for `tryAcquireMaster_spec` at concrete lock states. -/
theorem tryAcquireMaster_spec_instance :
    (tryAcquireMaster "a" none (some ⟨"a", 0⟩) 0 1).success = true ∧
    (tryAcquireMaster "a" (some ⟨"b", 0⟩) (some ⟨"a", 5000⟩) 5000
        1).success = true ∧
    tryAcquireMaster "a" (some ⟨"b", 500⟩) none 1000 1 = ⟨false, false⟩ := by
  refine ⟨?_, ?_, ?_⟩
  · exact ((tryAcquireMaster_spec "a" none (some ⟨"a", 0⟩) 0 1).1
      rfl).2.mpr ⟨⟨"a", 0⟩, rfl, rfl⟩
  · exact ((tryAcquireMaster_spec "a" (some ⟨"b", 0⟩) (some ⟨"a", 5000⟩)
      5000 1).2.1 ⟨"b", 0⟩ rfl (by decide)).2.mpr ⟨⟨"a", 5000⟩, rfl, rfl⟩
  · exact (tryAcquireMaster_spec "a" (some ⟨"b", 500⟩) none 1000 1).2.2
      ⟨"b", 500⟩ rfl (by decide) (by decide)

/-! ## Claim C6: election poll tick -/

/-- C6 counterexample: a process whose `isMaster` flag is `true` that
finds the lock recorded to a *different* owner does not always stop its
jobs: when that foreign record is stale the tick attempts reacquisition
instead, and when the confirmation re-read shows yet another racer as
owner (`"third"`), the tick leaves the deposed leader's scheduled jobs
and heartbeat running, contradicting the claim's unconditional
"stops ... immediately". -/
theorem stale_foreign_lock_leader_keeps_jobs :
    monitorTick ⟨true, true⟩ "me" ⟨true, true, true, true⟩
        (some ⟨"other", 0⟩) (some ⟨"third", 999999⟩) 1000000 1 =
      ⟨true, true, true, true⟩ := by decide

/-- C6 (amended): at a poll tick, a process that finds itself recorded
as lock owner while its local leader flag is `false` re-enters
leadership (flag set, heartbeat restarted, the enabled scheduled jobs
restarted); and a leader that finds the lock *freshly* (within the TTL)
recorded to a different owner stops its scheduled jobs and heartbeat
immediately. -/
theorem monitorTick_leadership_spec (cfg : MasterConfig)
    (instanceId : String) (st : ProcState) (l : LockRecord)
    (reread : Option LockRecord) (now ttl : Nat) :
    (l.ownerId = instanceId → st.isMaster = false →
      monitorTick cfg instanceId st (some l) reread now ttl =
        { isMaster := true, heartbeatRunning := true
          archiveTimerRunning := cfg.autoArchiveEnabled
          purgeTimerRunning := cfg.autoPurgeEnabled }) ∧
    (st.isMaster = true → l.ownerId ≠ instanceId →
      lockAge now l ≤ (ttl : Int) * 1000 →
      monitorTick cfg instanceId st (some l) reread now ttl =
        { isMaster := false, heartbeatRunning := false
          archiveTimerRunning := false, purgeTimerRunning := false }) := by
  constructor
  · intro hown hnm
    simp [monitorTick, hown, hnm, startAsMaster]
  · intro hm hother hfresh
    simp [monitorTick, hother, if_neg (not_lt.mpr hfresh), hm,
      stopBeingMaster]

/-- Witness for `monitorTick_leadership_spec`: a follower that is the
recorded owner re-enters leadership; a leader deposed by a fresh
foreign lock stops everything. -/
theorem monitorTick_leadership_instance :
    monitorTick ⟨true, false⟩ "me" ⟨false, false, false, false⟩
        (some ⟨"me", 50⟩) none 100 1 =
      ⟨true, true, true, false⟩ ∧
    monitorTick ⟨true, true⟩ "me" ⟨true, true, true, true⟩
        (some ⟨"other", 100⟩) none 100 1 =
      ⟨false, false, false, false⟩ := by
  constructor
  · exact (monitorTick_leadership_spec ⟨true, false⟩ "me"
      ⟨false, false, false, false⟩ ⟨"me", 50⟩ none 100 1).1 rfl rfl
  · exact (monitorTick_leadership_spec ⟨true, true⟩ "me"
      ⟨true, true, true, true⟩ ⟨"other", 100⟩ none 100 1).2 rfl
      (by decide) (by decide)

/-! ## Claim C10: history tree pagination -/

/-- C10: `getChildren` on a collapsed workspace group returns the first
20 sessions matching the current filter and appends exactly one
`'Load More'` placeholder reporting the number of remaining matches
exactly when more than 20 match; on an expanded workspace it returns
all matching sessions with no placeholder. -/
theorem getChildren_pagination_spec (expandedWorkspaces : List String)
    (filter : String) (g : WorkspaceGroup) :
    (expandedWorkspaces.contains g.workspaceName = false →
      ((g.sessions.filter (matchesFilter filter)).length > 20 →
        getChildrenOfGroup expandedWorkspaces filter g =
          (g.sessions.filter (matchesFilter filter)).take 20 ++
            [loadMorePlaceholder g
              ((g.sessions.filter (matchesFilter filter)).length - 20)]) ∧
      ((g.sessions.filter (matchesFilter filter)).length ≤ 20 →
        getChildrenOfGroup expandedWorkspaces filter g =
          g.sessions.filter (matchesFilter filter))) ∧
    (expandedWorkspaces.contains g.workspaceName = true →
      getChildrenOfGroup expandedWorkspaces filter g =
        g.sessions.filter (matchesFilter filter)) := by
  constructor
  · intro hexp
    have hexp' : g.workspaceName ∉ expandedWorkspaces := by
      simpa [List.contains, List.elem_eq_mem] using hexp
    constructor
    · intro hlen
      simp [getChildrenOfGroup, hexp', hlen]
    · intro hlen
      simp [getChildrenOfGroup, hexp', Nat.not_lt.mpr hlen,
        List.take_of_length_le hlen]
  · intro hexp
    have hexp' : g.workspaceName ∈ expandedWorkspaces := by
      simpa [List.contains, List.elem_eq_mem] using hexp
    simp [getChildrenOfGroup, hexp']

/-- Witness for `getChildren_pagination_spec` on a collapsed and on an
expanded workspace. -/
theorem getChildren_pagination_instance :
    getChildrenOfGroup [] "" ⟨"w", none, []⟩ = [] ∧
    getChildrenOfGroup ["w"] "" ⟨"w", none, []⟩ = [] := by
  constructor
  · exact ((getChildren_pagination_spec [] "" ⟨"w", none, []⟩).1
      (by decide)).2 (by decide)
  · exact (getChildren_pagination_spec ["w"] "" ⟨"w", none, []⟩).2
      (by decide)

/-! ## Scanner lemmas -/

theorem mem_scanWith {res : WorkspaceSlot → String × Option FPath}
    {disk : Disk} {s : ChatSession} :
    s ∈ scanWith res disk ↔
      ∃ slot, slot ∈ disk ∧ slot.hasChatSessions = true ∧
        ∃ f, f ∈ slot.files ∧ strEnds f.name ".json" = true ∧
          scanFile (res slot).1 (res slot).2 slot f = some s := by
  constructor
  · intro h
    rw [scanWith, List.mem_flatMap] at h
    obtain ⟨slot, hslot, hmem⟩ := h
    by_cases hc : slot.hasChatSessions = true
    · rw [if_pos hc, List.mem_filterMap] at hmem
      obtain ⟨f, hf, hsf⟩ := hmem
      rw [List.mem_filter] at hf
      exact ⟨slot, hslot, hc, f, hf.1, hf.2, hsf⟩
    · rw [if_neg hc] at hmem
      simp at hmem
  · rintro ⟨slot, hslot, hc, f, hf, hjson, hsf⟩
    rw [scanWith, List.mem_flatMap]
    refine ⟨slot, hslot, ?_⟩
    rw [if_pos hc, List.mem_filterMap]
    exact ⟨f, List.mem_filter.mpr ⟨hf, hjson⟩, hsf⟩

theorem scanFile_some_facts {wsName : String} {wsPath? : Option FPath}
    {slot : WorkspaceSlot} {f : TranscriptFile} {s : ChatSession}
    (h : scanFile wsName wsPath? slot f = some s) :
    ∃ d, f.parsed? = some d ∧ zeroTurns d = false ∧
      s.filePath = sessionPathOf slot f ∧
      s.customTitle? = deriveCustomTitle d ∧
      s.id = basenameStrip f.name ".json" ∧
      s.messageCount = messageCountOf d ∧
      s.workspaceName = wsName := by
  cases hd : f.parsed? with
  | none => simp [scanFile, hd] at h
  | some d =>
    cases hb : zeroTurns d with
    | true => simp [scanFile, hd, hb] at h
    | false =>
      simp only [scanFile, hd, hb, Bool.false_eq_true, if_false,
        Option.some.injEq] at h
      subst h
      exact ⟨d, rfl, hb, rfl, rfl, rfl, rfl, rfl⟩

theorem sessionPathOf_inj {slot slot' : WorkspaceSlot}
    {f f' : TranscriptFile}
    (h : sessionPathOf slot f = sessionPathOf slot' f') :
    slot.slotName = slot'.slotName ∧ f.name = f'.name := by
  simp [sessionPathOf, wsStorageRoot] at h
  exact ⟨h.1, h.2⟩

/-- Transcripts identified by their path within a duplicate-free disk:
any scanned session whose `filePath` points at file `f` of slot `slot`
was built from `f`'s parsed data. -/
theorem scanWith_session_of_path {res : WorkspaceSlot → String × Option FPath}
    {disk : Disk} {slot : WorkspaceSlot} {f : TranscriptFile}
    {s : ChatSession}
    (hnodS : (disk.map WorkspaceSlot.slotName).Nodup)
    (hnodF : ∀ sl ∈ disk, (sl.files.map TranscriptFile.name).Nodup)
    (hslot : slot ∈ disk) (hf : f ∈ slot.files)
    (hs : s ∈ scanWith res disk)
    (hpath : s.filePath = sessionPathOf slot f) :
    ∃ d, f.parsed? = some d ∧ zeroTurns d = false ∧
      s.customTitle? = deriveCustomTitle d ∧
      s.id = basenameStrip f.name ".json" ∧
      s.messageCount = messageCountOf d := by
  obtain ⟨slot', hslot', hc', f', hf', hjson', hsf'⟩ := mem_scanWith.mp hs
  obtain ⟨d', hd', hz', hpath', hct', hid', hmc', _⟩ :=
    scanFile_some_facts hsf'
  rw [hpath'] at hpath
  obtain ⟨hname, hfname⟩ := sessionPathOf_inj hpath
  have hslot_eq : slot' = slot :=
    List.inj_on_of_nodup_map hnodS hslot' hslot hname
  subst hslot_eq
  have hf_eq : f' = f :=
    List.inj_on_of_nodup_map (hnodF slot' hslot) hf' hf hfname
  subst hf_eq
  exact ⟨d', hd', hz', hct', hid', hmc'⟩

/-! ## Claim C8: zero-turn transcripts excluded -/

/-- C8: on a disk without duplicate slot or file names, a transcript
whose parsed content has an absent or empty `requests` list contributes
no session to either the full scan or the background scan. -/
theorem zero_turn_excluded_spec (env : ScanEnv) (disk : Disk)
    (slot : WorkspaceSlot) (f : TranscriptFile) (d : SessionData)
    (hnodS : (disk.map WorkspaceSlot.slotName).Nodup)
    (hnodF : ∀ sl ∈ disk, (sl.files.map TranscriptFile.name).Nodup)
    (hslot : slot ∈ disk) (hf : f ∈ slot.files)
    (hd : f.parsed? = some d) (hzero : zeroTurns d = true) :
    (∀ s ∈ scanForChatSessions env disk,
      s.filePath ≠ sessionPathOf slot f) ∧
    (∀ s ∈ backgroundScanSessions disk,
      s.filePath ≠ sessionPathOf slot f) := by
  have core : ∀ res : WorkspaceSlot → String × Option FPath,
      ∀ s ∈ scanWith res disk, s.filePath ≠ sessionPathOf slot f := by
    intro res s hs hpath
    obtain ⟨d', hd', hz', _, _, _⟩ :=
      scanWith_session_of_path hnodS hnodF hslot hf hs hpath
    rw [hd] at hd'
    cases hd'
    rw [hzero] at hz'
    cases hz'
  refine ⟨core _, ?_⟩
  intro s hs
  exact core resolveWorkspaceBg s (by
    have := hs
    rw [backgroundScanSessions, List.mem_insertionSort] at this
    exact this)

/-- Witness for `zero_turn_excluded_spec`: a slot holding a zero-turn
and a one-turn transcript; no scanned session points at the zero-turn
file. -/
theorem zero_turn_excluded_instance :
    (∀ s ∈ scanForChatSessions trivialEnv [c8slot],
      s.filePath ≠ sessionPathOf c8slot c8emptyFile) ∧
    (∀ s ∈ backgroundScanSessions [c8slot],
      s.filePath ≠ sessionPathOf c8slot c8emptyFile) :=
  zero_turn_excluded_spec trivialEnv [c8slot] c8slot c8emptyFile
    ⟨some "t", some []⟩ (by decide) (by decide) (by decide) (by decide)
    (by decide) (by decide)

/-! ## Claim C9: title derivation -/

/-- C9 counterexample: the single session scanned from a transcript
whose first message is 30 `a`s followed by 21 spaces does not carry the
claim's predicted title (first 50 characters of the collapsed text,
ellipsis iff truncated): the code trims before truncating and appends
the ellipsis because the *original* text exceeds 50 characters, even
though the trimmed text was not cut. -/
theorem title_derivation_trim_mismatch :
    (scanForChatSessions trivialEnv [c9slot]).map (·.customTitle?) ≠
      [some (claimedDerivedTitle c9txt)] ∧
    (scanForChatSessions trivialEnv [c9slot]).length = 1 := by decide

/-- C9 (amended): for every scanned transcript with at least one turn,
a truthy explicit title field becomes `customTitle` unchanged;
otherwise, when the first turn's message text is truthy, `customTitle`
is the first 50 characters of that text with newlines collapsed to
spaces *and surrounding whitespace trimmed*, with an ellipsis appended
iff the original text is longer than 50 characters. Holds for the full
scan and the background scan alike. -/
theorem title_derivation_spec (env : ScanEnv) (disk : Disk)
    (slot : WorkspaceSlot) (f : TranscriptFile) (d : SessionData)
    (hnodS : (disk.map WorkspaceSlot.slotName).Nodup)
    (hnodF : ∀ sl ∈ disk, (sl.files.map TranscriptFile.name).Nodup)
    (hslot : slot ∈ disk) (hf : f ∈ slot.files)
    (hd : f.parsed? = some d) :
    ∀ s, (s ∈ scanForChatSessions env disk ∨
        s ∈ backgroundScanSessions disk) →
      s.filePath = sessionPathOf slot f →
      (jsTruthyStr d.customTitle? = true →
        s.customTitle? = d.customTitle?) ∧
      (jsTruthyStr d.customTitle? = false →
        ∀ first rest txt, d.requests? = some (first :: rest) →
          first.text? = some txt → txt ≠ "" →
          s.customTitle? =
            some (jsTake 50 (jsTrim (collapseNewlines txt)) ++
              if 50 < jsLen txt then "..." else "")) := by
  intro s hs hpath
  have hsw : ∃ res : WorkspaceSlot → String × Option FPath,
      s ∈ scanWith res disk := by
    rcases hs with h | h
    · exact ⟨resolveWorkspace env, h⟩
    · refine ⟨resolveWorkspaceBg, ?_⟩
      rw [backgroundScanSessions, List.mem_insertionSort] at h
      exact h
  obtain ⟨res, hmem⟩ := hsw
  obtain ⟨d', hd', _, hct, _, _⟩ :=
    scanWith_session_of_path hnodS hnodF hslot hf hmem hpath
  rw [hd] at hd'
  cases hd'
  constructor
  · intro htruthy
    rw [hct]
    simp [deriveCustomTitle, htruthy]
  · intro hfalsy first rest txt hreq htxt htxtne
    rw [hct]
    simp [deriveCustomTitle, hfalsy, hreq, htxt, htxtne]

/-- Witness for `title_derivation_spec`: on the one-slot disk holding
the 51-character first message, the scanned session `c9session` gets
the trimmed-then-truncated title with the ellipsis. -/
theorem title_derivation_instance :
    c9session.customTitle? =
      some (jsTake 50 (jsTrim (collapseNewlines c9txt)) ++
        if 50 < jsLen c9txt then "..." else "") :=
  (title_derivation_spec trivialEnv [c9slot] c9slot
      ⟨"abc.json", some c9data, 3⟩ c9data (by decide) (by decide)
      (by decide) (by decide) (by decide) c9session
      (Or.inl (by decide)) (by decide)).2 (by decide)
    ⟨some c9txt⟩ [] c9txt (by decide) (by decide) (by decide)

/-! ## Path lemmas for the archive engine -/

theorem isUnder_append (dir rest : FPath) (h : rest ≠ []) :
    isUnder dir (dir ++ rest) = true := by
  simp [isUnder, List.take_append]
  cases rest with
  | nil => exact absurd rfl h
  | cons a l => simp

theorem concat_ne_of_last_ne (dir : FPath) (a b : String) (h : a ≠ b) :
    dir ++ [a] ≠ dir ++ [b] := by
  simp [h]

theorem strAppend_assoc (s t u : String) : s ++ t ++ u = s ++ (t ++ u) := by
  cases s; cases t; cases u
  simp [String.ext_iff]

theorem metaPathOf_concat (l : FPath) (a : String) :
    metaPathOf (l ++ [a]) = l ++ [a ++ ".meta.json"] := by
  simp [metaPathOf, List.dropLast_concat, List.getLastD_concat]

theorem dropLast_concat' (l : FPath) (a : String) :
    (l ++ [a]).dropLast = l := by
  simp [List.dropLast_concat]

theorem dot_append_ne_empty (s : String) : "." ++ s ≠ "" := by
  intro h
  have hlen := congrArg String.length h
  simp only [String.length_append] at hlen
  have h1 : (".").length = 1 := rfl
  have h2 : ("" : String).length = 0 := rfl
  omega

theorem meta_suffix_ne_empty (s : String) : s ++ ".meta.json" ≠ "" := by
  intro h
  have hlen := congrArg String.length h
  simp only [String.length_append] at hlen
  have h1 : (".meta.json").length = 10 := rfl
  have h2 : ("" : String).length = 0 := rfl
  omega

/-- Postconditions of `moveSessionToArchive` (shared helper): the
transcript leaves its original path, lands at the archive path inside
the per-workspace archive directory, its sidecar records provenance,
and a name collision is resolved with a timestamp suffix without
touching the occupant. -/
theorem moveSessionToArchive_spec (fs : FS) (session : ChatSession)
    (now : Nat) (baseRoot : FPath) (srcPath : FPath) (fd : FData)
    (mt : Nat)
    (hres : resolveSessionFilePath session = some srcPath)
    (hsrc : fs.fileAt srcPath = some (fd, mt))
    (hout : isUnder (baseRoot ++ ["archive"]) srcPath = false) :
    ∃ fs' entry,
      moveSessionToArchive fs session now baseRoot = some (fs', entry) ∧
      entry.originalPath = srcPath ∧
      entry.sessionId = session.id ∧
      entry.archivePath.dropLast = baseRoot ++ ["archive",
        sanitizeFileName
          (if session.workspaceName = "" then "unknown-workspace"
           else session.workspaceName)] ∧
      fs'.fileAt srcPath = none ∧
      fs'.fileAt entry.archivePath = some (fd, mt) ∧
      fs'.fileAt (metaPathOf entry.archivePath) =
        some (.sidecar
          { originalPath := srcPath
            sessionId := session.id
            workspaceName? :=
              if session.workspaceName = "" then none
              else some session.workspaceName
            archivedAt := now }, now) ∧
      (∀ d0 t0,
        fs.fileAt (entry.archivePath.dropLast ++ [srcPath.getLastD ""]) =
          some (d0, t0) →
        entry.archivePath = entry.archivePath.dropLast ++
          [srcPath.getLastD "" ++ "." ++ toString now] ∧
        fs'.fileAt (entry.archivePath.dropLast ++ [srcPath.getLastD ""]) =
          some (d0, t0)) ∧
      (∀ q, q ≠ srcPath → q ≠ entry.archivePath →
        q ≠ metaPathOf entry.archivePath →
        fs'.fileAt q = fs.fileAt q) := by
  simp only [moveSessionToArchive, hres]
  generalize sanitizeFileName
    (if session.workspaceName = "" then "unknown-workspace"
     else session.workspaceName) = w
  have hne_src : ∀ x : String,
      baseRoot ++ ["archive", w] ++ [x] ≠ srcPath := by
    intro x heq
    have h1 : isUnder (baseRoot ++ ["archive"])
        (baseRoot ++ ["archive"] ++ [w, x]) = true :=
      isUnder_append _ _ (by simp)
    have h2 : baseRoot ++ ["archive"] ++ [w, x] =
        baseRoot ++ ["archive", w] ++ [x] := by simp
    rw [h2, heq] at h1
    rw [hout] at h1
    exact absurd h1 (by decide)
  have hsrc' : (fs.mkdirp (baseRoot ++ ["archive", w])).fileAt srcPath =
      some (fd, mt) := hsrc
  have hfex : (fs.mkdirp (baseRoot ++ ["archive", w])).fileExists srcPath
      = true := by
    simp [FS.fileExists, fileAt_mkdirp, hsrc]
  have hmove := fileAt_moveFileTo (fs.mkdirp (baseRoot ++ ["archive", w]))
  by_cases hcol : (fs.mkdirp (baseRoot ++ ["archive", w])).fileExists
      (baseRoot ++ ["archive", w] ++ [srcPath.getLastD ""]) = true
  · -- a file already sits at the default destination name
    rw [if_pos hfex, if_pos hcol]
    refine ⟨_, _, rfl, rfl, rfl, dropLast_concat' _ _, ?_, ?_, ?_, ?_, ?_⟩
    · simp only [metaPathOf_concat]
      rw [fileAt_writeFile]
      rw [if_neg (fun h => hne_src _ h.symm)]
      rw [hmove _ _ _ _ hsrc']
      rw [if_neg (fun h => hne_src _ h.symm), if_pos rfl]
    · simp only [metaPathOf_concat]
      rw [fileAt_writeFile]
      rw [if_neg (concat_ne_of_last_ne _ _ _
        (Ne.symm (strAppend_ne_self _ ".meta.json" (by decide))))]
      rw [hmove _ _ _ _ hsrc', if_pos rfl]
    · simp only [metaPathOf_concat]
      rw [fileAt_writeFile, if_pos rfl]
    · intro d0 t0 hocc
      simp only [dropLast_concat'] at hocc
      refine ⟨by rw [dropLast_concat'], ?_⟩
      simp only [metaPathOf_concat, dropLast_concat']
      rw [fileAt_writeFile]
      rw [if_neg (concat_ne_of_last_ne _ _ _ (by
        rw [strAppend_assoc, strAppend_assoc]
        exact Ne.symm (strAppend_ne_self _ _ (dot_append_ne_empty _))))]
      rw [hmove _ _ _ _ hsrc']
      rw [if_neg (concat_ne_of_last_ne _ _ _ (by
        rw [strAppend_assoc]
        exact Ne.symm (strAppend_ne_self _ _ (dot_append_ne_empty _))))]
      rw [if_neg (hne_src _)]
      exact hocc
    · intro q hq1 hq2 hq3
      simp only [metaPathOf_concat] at hq3 ⊢
      dsimp only at hq2
      rw [fileAt_writeFile, if_neg hq3, hmove _ _ _ _ hsrc', if_neg hq2,
        if_neg hq1]
      rfl
  · -- no collision: the file keeps its base name
    rw [if_pos hfex, if_neg hcol]
    refine ⟨_, _, rfl, rfl, rfl, dropLast_concat' _ _, ?_, ?_, ?_, ?_, ?_⟩
    · simp only [metaPathOf_concat]
      rw [fileAt_writeFile]
      rw [if_neg (fun h => hne_src _ h.symm)]
      rw [hmove _ _ _ _ hsrc']
      rw [if_neg (fun h => hne_src _ h.symm), if_pos rfl]
    · simp only [metaPathOf_concat]
      rw [fileAt_writeFile]
      rw [if_neg (concat_ne_of_last_ne _ _ _
        (Ne.symm (strAppend_ne_self _ ".meta.json" (by decide))))]
      rw [hmove _ _ _ _ hsrc', if_pos rfl]
    · simp only [metaPathOf_concat]
      rw [fileAt_writeFile, if_pos rfl]
    · intro d0 t0 hocc
      simp only [dropLast_concat'] at hocc
      exact absurd (by
        simp only [FS.fileExists, fileAt_mkdirp, hocc,
          Option.isSome_some]) hcol
    · intro q hq1 hq2 hq3
      simp only [metaPathOf_concat] at hq3 ⊢
      dsimp only at hq2
      rw [fileAt_writeFile, if_neg hq3, hmove _ _ _ _ hsrc', if_neg hq2,
        if_neg hq1]
      rfl

/-! ## Claim C2: archive postconditions -/

/-- C2: after every successful archive of a session whose transcript
lives outside the archive root, the transcript no longer exists at its
original path; a metadata sidecar exists next to the archived file
recording the original path, session id, workspace name and archive
timestamp; and a name collision at the destination is resolved by
suffixing the destination name with the current timestamp rather than
overwriting the existing file. -/
theorem archive_postconditions (fs : FS) (session : ChatSession)
    (now : Nat) (baseRoot : FPath) (srcPath : FPath) (fd : FData)
    (mt : Nat)
    (hres : resolveSessionFilePath session = some srcPath)
    (hsrc : fs.fileAt srcPath = some (fd, mt))
    (hout : isUnder (baseRoot ++ ["archive"]) srcPath = false) :
    ∃ fs' entry,
      moveSessionToArchive fs session now baseRoot = some (fs', entry) ∧
      entry.originalPath = srcPath ∧
      fs'.fileAt srcPath = none ∧
      fs'.fileAt entry.archivePath = some (fd, mt) ∧
      fs'.fileAt (metaPathOf entry.archivePath) =
        some (.sidecar
          { originalPath := srcPath
            sessionId := session.id
            workspaceName? :=
              if session.workspaceName = "" then none
              else some session.workspaceName
            archivedAt := now }, now) ∧
      (∀ d0 t0,
        fs.fileAt (entry.archivePath.dropLast ++ [srcPath.getLastD ""]) =
          some (d0, t0) →
        entry.archivePath = entry.archivePath.dropLast ++
          [srcPath.getLastD "" ++ "." ++ toString now] ∧
        fs'.fileAt (entry.archivePath.dropLast ++ [srcPath.getLastD ""]) =
          some (d0, t0)) := by
  obtain ⟨fs', entry, h1, h2, h3, _, h5, h6, h7, h8, _⟩ :=
    moveSessionToArchive_spec fs session now baseRoot srcPath fd mt hres
      hsrc hout
  exact ⟨fs', entry, h1, h2, h5, h6, h7, h8⟩

/-- Witness for `archive_postconditions`: one transcript on disk, an
empty archive, timestamp 100. -/
theorem archive_postconditions_instance :
    ∃ fs' entry,
      moveSessionToArchive c2fs c2session 100 ["gs"] = some (fs', entry) ∧
      entry.originalPath = c2path ∧
      fs'.fileAt c2path = none ∧
      fs'.fileAt entry.archivePath = some (c2fd, 7) ∧
      fs'.fileAt (metaPathOf entry.archivePath) =
        some (.sidecar
          { originalPath := c2path
            sessionId := c2session.id
            workspaceName? :=
              if c2session.workspaceName = "" then none
              else some c2session.workspaceName
            archivedAt := 100 }, 100) ∧
      (∀ d0 t0,
        c2fs.fileAt (entry.archivePath.dropLast ++ [c2path.getLastD ""]) =
          some (d0, t0) →
        entry.archivePath = entry.archivePath.dropLast ++
          [c2path.getLastD "" ++ "." ++ toString 100] ∧
        fs'.fileAt (entry.archivePath.dropLast ++ [c2path.getLastD ""]) =
          some (d0, t0)) :=
  archive_postconditions c2fs c2session 100 ["gs"] c2path c2fd 7
    (by decide) (by decide) (by decide)

/-! ## Lemmas about `removeEmptyArchiveWorkspace` and the restore
command -/

theorem removeEmpty_eq_or (fs : FS) (dir : FPath) :
    removeEmptyArchiveWorkspace fs dir = fs ∨
    removeEmptyArchiveWorkspace fs dir = fs.rmdirRec dir := by
  unfold removeEmptyArchiveWorkspace
  by_cases h1 : ¬ fs.dirExists dir = true
  · rw [if_pos h1]; exact Or.inl rfl
  · rw [if_neg h1]
    by_cases h2 : (fs.readdirNames dir).any
        (fun f => strEnds f ".json" && !strEnds f ".meta.json") = true
    · rw [if_pos h2]; exact Or.inl rfl
    · rw [if_neg h2]; exact Or.inr rfl

theorem fileAt_removeEmpty_not_under (fs : FS) (dir q : FPath)
    (h : isUnder dir q = false) :
    (removeEmptyArchiveWorkspace fs dir).fileAt q = fs.fileAt q := by
  rcases removeEmpty_eq_or fs dir with he | he
  · rw [he]
  · rw [he, fileAt_rmdirRec]
    simp [h]

theorem fileAt_removeEmpty_none (fs : FS) (dir q : FPath)
    (h : fs.fileAt q = none) :
    (removeEmptyArchiveWorkspace fs dir).fileAt q = none := by
  rcases removeEmpty_eq_or fs dir with he | he
  · rw [he, h]
  · rw [he, fileAt_rmdirRec]
    simp [h]

/-- Postconditions of the sidecar-based restore command (shared
helper): the archived file is moved back to exactly the recorded
original path (replacing whatever was there), the sidecar is deleted,
the recorded session id goes to the skip-list, and the cache record is
rebuilt from the file system after the move. -/
theorem restoreArchivedSession_spec (fs : FS) (archivedPath : FPath)
    (m : ArchiveMeta) (tm : Nat) (fd : FData) (ft : Nat)
    (hmeta : fs.fileAt (metaPathOf archivedPath) = some (.sidecar m, tm))
    (harch : fs.fileAt archivedPath = some (fd, ft))
    (hne1 : m.originalPath ≠ archivedPath)
    (hne2 : m.originalPath ≠ metaPathOf archivedPath)
    (hne3 : isUnder archivedPath.dropLast m.originalPath = false) :
    (restoreArchivedSession fs archivedPath).fs.fileAt m.originalPath =
      some (fd, ft) ∧
    (restoreArchivedSession fs archivedPath).fs.fileAt
      (metaPathOf archivedPath) = none ∧
    (restoreArchivedSession fs archivedPath).fs.fileAt archivedPath =
      none ∧
    (restoreArchivedSession fs archivedPath).skipAdded? =
      (if m.sessionId ≠ "" then some m.sessionId else none) ∧
    (restoreArchivedSession fs archivedPath).restored? =
      rebuildRestoredSession
        ((fs.moveFileTo m.originalPath archivedPath).unlink
          (metaPathOf archivedPath)) m.originalPath := by
  have hmove := fileAt_moveFileTo fs m.originalPath archivedPath fd ft harch
  have hmetafs1 : (fs.moveFileTo m.originalPath archivedPath).fileAt
      (metaPathOf archivedPath) = some (.sidecar m, tm) := by
    rw [hmove, if_neg (fun h => hne2 h.symm),
      if_neg (metaPathOf_ne_self archivedPath), hmeta]
  have hfex : (fs.moveFileTo m.originalPath archivedPath).fileExists
      (metaPathOf archivedPath) = true := by
    simp [FS.fileExists, hmetafs1]
  simp only [restoreArchivedSession, hmeta]
  rw [if_pos hfex]
  refine ⟨?_, ?_, ?_, by trivial, by trivial⟩
  · rw [fileAt_removeEmpty_not_under _ _ _ hne3, fileAt_unlink,
      if_neg hne2, hmove, if_pos rfl]
  · apply fileAt_removeEmpty_none
    rw [fileAt_unlink, if_pos rfl]
  · apply fileAt_removeEmpty_none
    rw [fileAt_unlink, if_neg (Ne.symm (metaPathOf_ne_self archivedPath)),
      hmove, if_neg (Ne.symm hne1), if_pos rfl]

/-! ## Claim C3: restore destination handling -/

/-- C3 counterexample: the quarantine of the claim's scenario holds
`abc123.json` with a sidecar recording an original path at which a
*different* file already exists; the restore command nevertheless moves
the archived file to exactly that path, replacing the existing file,
instead of writing it under a disambiguated name. -/
theorem restore_overwrites_existing_original :
    c3fs.fileAt c3orig = some (c3occupant, 9) ∧
    (restoreArchivedSession c3fs c3arch).fs.fileAt c3orig =
      some (c3archived, 5) ∧
    c3occupant ≠ c3archived := by decide

/-- C3 (amended): the sidecar-based restore command always moves the
archived file back to exactly the recorded original path and deletes
the sidecar, replacing any file already at that path; disambiguation
(a `.restored.<timestamp>` suffix) happens only in the undo path
`restoreArchivedEntries`, which, when the original path is occupied,
writes the restored file under the disambiguated name in the same
directory and leaves the occupant untouched. -/
theorem restore_and_undo_paths_spec (fs : FS) (now : Nat) :
    (∀ archivedPath m tm fd ft,
      fs.fileAt (metaPathOf archivedPath) = some (.sidecar m, tm) →
      fs.fileAt archivedPath = some (fd, ft) →
      m.originalPath ≠ archivedPath →
      m.originalPath ≠ metaPathOf archivedPath →
      isUnder archivedPath.dropLast m.originalPath = false →
      (restoreArchivedSession fs archivedPath).fs.fileAt m.originalPath =
        some (fd, ft) ∧
      (restoreArchivedSession fs archivedPath).fs.fileAt
        (metaPathOf archivedPath) = none ∧
      (restoreArchivedSession fs archivedPath).fs.fileAt archivedPath =
        none) ∧
    (∀ entry : ArchiveEntry, ∀ od ot fd ft,
      fs.fileAt entry.originalPath = some (od, ot) →
      fs.fileAt entry.archivePath = some (fd, ft) →
      entry.archivePath ≠ entry.originalPath →
      entry.archivePath ≠ entry.originalPath.dropLast ++
        [basenameStrip (entry.originalPath.getLastD "")
            (extnameOf (entry.originalPath.getLastD "")) ++
          ".restored." ++ toString now ++
          extnameOf (entry.originalPath.getLastD "")] →
      entry.originalPath.dropLast ++
        [basenameStrip (entry.originalPath.getLastD "")
            (extnameOf (entry.originalPath.getLastD "")) ++
          ".restored." ++ toString now ++
          extnameOf (entry.originalPath.getLastD "")] ≠
        entry.originalPath →
      (restoreArchivedEntries fs [entry] now).fileAt
        (entry.originalPath.dropLast ++
          [basenameStrip (entry.originalPath.getLastD "")
              (extnameOf (entry.originalPath.getLastD "")) ++
            ".restored." ++ toString now ++
            extnameOf (entry.originalPath.getLastD "")]) =
        some (fd, ft) ∧
      (restoreArchivedEntries fs [entry] now).fileAt
        entry.originalPath = some (od, ot) ∧
      (restoreArchivedEntries fs [entry] now).fileAt
        entry.archivePath = none) := by
  constructor
  · intro archivedPath m tm fd ft hmeta harch hne1 hne2 hne3
    obtain ⟨h1, h2, h3, _, _⟩ :=
      restoreArchivedSession_spec fs archivedPath m tm fd ft hmeta harch
        hne1 hne2 hne3
    exact ⟨h1, h2, h3⟩
  · intro entry od ot fd ft hocc harch hne1 hne2 hne3
    simp only [restoreArchivedEntries, List.foldl_cons, List.foldl_nil]
    have hocc' : (fs.mkdirp entry.originalPath.dropLast).fileExists
        entry.originalPath = true := by
      simp only [FS.fileExists, fileAt_mkdirp, hocc, Option.isSome_some]
    rw [if_pos hocc']
    have harch' : (fs.mkdirp entry.originalPath.dropLast).fileAt
        entry.archivePath = some (fd, ft) := harch
    have hmove := fileAt_moveFileTo (fs.mkdirp entry.originalPath.dropLast)
      (entry.originalPath.dropLast ++
        [basenameStrip (entry.originalPath.getLastD "")
            (extnameOf (entry.originalPath.getLastD "")) ++
          ".restored." ++ toString now ++
          extnameOf (entry.originalPath.getLastD "")])
      entry.archivePath fd ft harch'
    refine ⟨?_, ?_, ?_⟩
    · rw [hmove, if_pos rfl]
    · rw [hmove, if_neg (Ne.symm hne3), if_neg (fun h => hne1 h.symm)]
      exact hocc
    · rw [hmove, if_neg hne2, if_pos rfl]

/-- Witness for `restore_and_undo_paths_spec` on the scenario file
system: both the command path and the undo path at timestamp 77. -/
theorem restore_and_undo_paths_instance :
    ((restoreArchivedSession c3fs c3arch).fs.fileAt c3orig =
        some (c3archived, 5) ∧
      (restoreArchivedSession c3fs c3arch).fs.fileAt (metaPathOf c3arch) =
        none ∧
      (restoreArchivedSession c3fs c3arch).fs.fileAt c3arch = none) ∧
    ((restoreArchivedEntries c3fs [c3entry] 77).fileAt
        (["ws", "slot2", "chatSessions"] ++ ["abc123.restored.77.json"]) =
        some (c3archived, 5) ∧
      (restoreArchivedEntries c3fs [c3entry] 77).fileAt c3orig =
        some (c3occupant, 9) ∧
      (restoreArchivedEntries c3fs [c3entry] 77).fileAt c3arch = none) := by
  constructor
  · exact (restore_and_undo_paths_spec c3fs 77).1 c3arch c3meta 5
      c3archived 5 (by decide) (by decide) (by decide) (by decide)
      (by decide)
  · exact (restore_and_undo_paths_spec c3fs 77).2 c3entry c3occupant 9
      c3archived 5 (by decide) (by decide) (by decide) (by decide)
      (by decide)

/-! ## Quarantine-pruning lemmas (claim C7) -/

theorem filterMap_filter_of_isSome {α β : Type} (f : α → Option β)
    (p : α → Bool) :
    ∀ l : List α, (∀ a ∈ l, (f a).isSome = true → p a = true) →
      (l.filter p).filterMap f = l.filterMap f
  | [], _ => rfl
  | a :: rest, h => by
    have ih := filterMap_filter_of_isSome f p rest
      (fun x hx hsome => h x (List.mem_cons_of_mem _ hx) hsome)
    by_cases hpa : p a = true
    · rw [List.filter_cons_of_pos hpa, List.filterMap_cons,
        List.filterMap_cons, ih]
    · have hfa : f a = none := by
        cases hfa : f a with
        | none => rfl
        | some b =>
          exact absurd (h a (List.mem_cons_self a rest) (by simp [hfa]))
            hpa
      rw [List.filter_cons_of_neg (by simpa using hpa),
        List.filterMap_cons, hfa, ih]

theorem childNameOf_isSome_facts {dir p : FPath}
    (h : (childNameOf dir p).isSome = true) :
    p.dropLast = dir ∧ p ≠ [] := by
  unfold childNameOf at h
  by_cases hc : p.dropLast = dir ∧ p ≠ []
  · exact hc
  · rw [if_neg hc] at h
    cases h

theorem child_not_under_sibling {dir1 dir2 p : FPath}
    (hlen : dir1.length = dir2.length) (hne : dir1 ≠ dir2)
    (hdrop : p.dropLast = dir1) (hnp : p ≠ []) :
    isUnder dir2 p = false ∧ p ≠ dir2 := by
  have hp : p = dir1 ++ [p.getLast hnp] := by
    rw [← hdrop]
    exact (List.dropLast_append_getLast hnp).symm
  have htake : p.take dir2.length = dir1 := by
    rw [hp, ← hlen]
    exact List.take_left _ _
  constructor
  · unfold isUnder
    rw [htake]
    simp [hne]
  · intro h
    have h1 : p.length = dir1.length + 1 := by rw [hp]; simp
    have h2 : p.length = dir1.length := by rw [h, ← hlen]
    omega

theorem readdirNames_rmdirRec_sibling (fs : FS) (dir1 dir2 : FPath)
    (hlen : dir1.length = dir2.length) (hne : dir1 ≠ dir2) :
    (fs.rmdirRec dir2).readdirNames dir1 = fs.readdirNames dir1 := by
  unfold FS.readdirNames FS.rmdirRec
  dsimp only
  congr 1
  · apply filterMap_filter_of_isSome
    intro e _ hsome
    obtain ⟨hdrop, hnp⟩ := childNameOf_isSome_facts hsome
    have hu := (child_not_under_sibling hlen hne hdrop hnp).1
    simp [hu]
  · apply filterMap_filter_of_isSome
    intro d _ hsome
    obtain ⟨hdrop, hnp⟩ := childNameOf_isSome_facts hsome
    obtain ⟨h1, h2⟩ := child_not_under_sibling hlen hne hdrop hnp
    simp [h1, h2]

theorem dirExists_rmdirRec_sibling (fs : FS) (dir1 dir2 : FPath)
    (hlen : dir1.length = dir2.length) (hne : dir1 ≠ dir2) :
    (fs.rmdirRec dir2).dirExists dir1 = fs.dirExists dir1 := by
  rw [dirExists_rmdirRec]
  have hu : isUnder dir2 dir1 = false := by
    unfold isUnder
    rw [hlen]
    simp
  simp [hne, hu]

theorem quarantineInv_removeEmpty_self (fs : FS) (dir : FPath) :
    quarantineInv (removeEmptyArchiveWorkspace fs dir) dir := by
  unfold quarantineInv removeEmptyArchiveWorkspace
  by_cases h1 : ¬ fs.dirExists dir = true
  · rw [if_pos h1]
    intro h
    exact absurd h h1
  · rw [if_neg h1]
    by_cases h2 : (fs.readdirNames dir).any
        (fun f => strEnds f ".json" && !strEnds f ".meta.json") = true
    · rw [if_pos h2]
      intro _
      exact h2
    · rw [if_neg h2]
      intro h
      rw [dirExists_rmdirRec] at h
      simp at h

theorem quarantineInv_removeEmpty_preserve (fs : FS) (dir1 dir2 : FPath)
    (hlen : dir1.length = dir2.length) (hinv : quarantineInv fs dir1) :
    quarantineInv (removeEmptyArchiveWorkspace fs dir2) dir1 := by
  by_cases heq : dir1 = dir2
  · subst heq
    exact quarantineInv_removeEmpty_self fs dir1
  · rcases removeEmpty_eq_or fs dir2 with he | he
    · rw [he]
      exact hinv
    · rw [he]
      unfold quarantineInv
      rw [dirExists_rmdirRec_sibling fs dir1 dir2 hlen heq,
        readdirNames_rmdirRec_sibling fs dir1 dir2 hlen heq]
      exact hinv

theorem quarantineInv_foldl_preserve :
    ∀ (dirs : List FPath) (fs : FS) (dir : FPath),
      (∀ d ∈ dirs, d.length = dir.length) → quarantineInv fs dir →
      quarantineInv (dirs.foldl removeEmptyArchiveWorkspace fs) dir
  | [], _, _, _, hinv => hinv
  | d :: rest, fs, dir, hlen, hinv => by
    rw [List.foldl_cons]
    exact quarantineInv_foldl_preserve rest _ dir
      (fun x hx => hlen x (List.mem_cons_of_mem _ hx))
      (quarantineInv_removeEmpty_preserve fs dir d
        (hlen d (List.mem_cons_self d rest)).symm hinv)

theorem quarantineInv_foldl_mem :
    ∀ (dirs : List FPath) (fs : FS) (dir : FPath),
      (∀ d ∈ dirs, d.length = dir.length) → dir ∈ dirs →
      quarantineInv (dirs.foldl removeEmptyArchiveWorkspace fs) dir
  | [], _, _, _, hmem => absurd hmem (List.not_mem_nil _)
  | d :: rest, fs, dir, hlen, hmem => by
    rw [List.foldl_cons]
    rcases List.mem_cons.mp hmem with heq | hmem'
    · subst heq
      exact quarantineInv_foldl_preserve rest _ dir
        (fun x hx => hlen x (List.mem_cons_of_mem _ hx))
        (quarantineInv_removeEmpty_self fs dir)
    · exact quarantineInv_foldl_mem rest _ dir
        (fun x hx => hlen x (List.mem_cons_of_mem _ hx)) hmem'

theorem emptyArchiveTargetDirs_shape (fs : FS) (baseRoot : FPath)
    (scope : Option String) :
    ∀ d ∈ emptyArchiveTargetDirs fs baseRoot scope,
      d.length = baseRoot.length + 2 := by
  intro d hd
  unfold emptyArchiveTargetDirs at hd
  cases scope with
  | none =>
    rw [List.mem_map] at hd
    obtain ⟨g, _, rfl⟩ := hd
    simp
  | some g =>
    simp only [List.mem_singleton] at hd
    subst hd
    simp

/-! ## Claim C7: pruning of emptied quarantine directories -/

/-- C7 counterexample: the scheduled auto-purge-by-age sweep deletes an
old archived transcript and its sidecar but never prunes the workspace
directory: afterwards the quarantine subdirectory still exists while
containing no transcript `.json` child, contradicting the claim's
"after any operation that could have emptied it". -/
theorem purge_leaves_empty_workspace_dir :
    (purgeArchiveOlderThan c7fs ["gs"] 1 172800000).fileAt c7file = none ∧
    (purgeArchiveOlderThan c7fs ["gs"] 1 172800000).dirExists c7dir =
      true ∧
    ((purgeArchiveOlderThan c7fs ["gs"] 1 172800000).readdirNames
        c7dir).any (fun f => strEnds f ".json" && !strEnds f ".meta.json")
      = false := by decide

/-- C7 (amended): after restoring an archived session (sidecar
present), permanently deleting an archived file, or the interactive
empty-archive command, every quarantine subdirectory those operations
touched that no longer contains a transcript `.json` child has been
removed; the scheduled auto-purge-by-age sweep performs no such
pruning. -/
theorem quarantine_prune_spec (fs : FS) (baseRoot : FPath) :
    (∀ archivedPath m tm,
      fs.fileAt (metaPathOf archivedPath) = some (.sidecar m, tm) →
      quarantineInv (restoreArchivedSession fs archivedPath).fs
        archivedPath.dropLast) ∧
    (∀ archivedPath, fs.fileExists archivedPath = true →
      quarantineInv (deleteArchivedSession fs archivedPath)
        archivedPath.dropLast) ∧
    (∀ scope cutoff, ∀ dir ∈ emptyArchiveTargetDirs fs baseRoot scope,
      quarantineInv (emptyArchive fs baseRoot scope cutoff) dir) := by
  refine ⟨?_, ?_, ?_⟩
  · intro archivedPath m tm hmeta
    simp only [restoreArchivedSession, hmeta]
    exact quarantineInv_removeEmpty_self _ _
  · intro archivedPath hex
    simp only [deleteArchivedSession, hex, if_true]
    exact quarantineInv_removeEmpty_self _ _
  · intro scope cutoff dir hdir
    have hshape := emptyArchiveTargetDirs_shape fs baseRoot scope
    simp only [emptyArchive]
    exact quarantineInv_foldl_mem _ _ _
      (fun d hd => by rw [hshape d hd, hshape dir hdir]) hdir

/-- Witness for `quarantine_prune_spec`: the restore of the C3
scenario, a permanent delete, and an all-scope empty-archive on the C7
quarantine. -/
theorem quarantine_prune_instance :
    quarantineInv (restoreArchivedSession c3fs c3arch).fs
      c3arch.dropLast ∧
    quarantineInv (deleteArchivedSession c7fs c7file) c7file.dropLast ∧
    quarantineInv (emptyArchive c7fs ["gs"] none none) c7dir := by
  refine ⟨?_, ?_, ?_⟩
  · exact (quarantine_prune_spec c3fs ["gs"]).1 c3arch c3meta 5 (by decide)
  · exact (quarantine_prune_spec c7fs ["gs"]).2.1 c7file (by decide)
  · exact (quarantine_prune_spec c7fs ["gs"]).2.2 none none c7dir
      (by decide)

/-! ## Claim C4: archive/restore round trip -/

theorem isUnder_extend_false {A p : FPath} (x : String)
    (h : isUnder A p = false) : isUnder (A ++ [x]) p = false := by
  cases hu : isUnder (A ++ [x]) p with
  | false => rfl
  | true =>
    exfalso
    unfold isUnder at hu h
    rw [Bool.and_eq_true, decide_eq_true_eq, decide_eq_true_eq] at hu
    obtain ⟨hlt, htake⟩ := hu
    have h1 : A.length < p.length := by
      simp only [List.length_append, List.length_cons,
        List.length_nil] at hlt
      omega
    have h2 : p.take A.length = A := by
      have hcong := congrArg (List.take A.length) htake
      rw [List.take_take] at hcong
      have hmin : min A.length (A ++ [x]).length = A.length := by
        simp only [List.length_append, List.length_cons, List.length_nil]
        omega
      rw [hmin] at hcong
      rw [hcong, List.take_left]
    simp [h1, h2] at h

theorem exists_concat_of_dropLast {p q : FPath} (hd : p.dropLast = q)
    (hq : q ≠ []) : ∃ x, p = q ++ [x] := by
  cases p with
  | nil => exact absurd hd.symm hq
  | cons a l =>
    refine ⟨(a :: l).getLast (List.cons_ne_nil a l), ?_⟩
    rw [← hd]
    exact (List.dropLast_append_getLast (List.cons_ne_nil a l)).symm

/-- C4 counterexample: for a slot with no `workspace.json`, the scan
labels the workspace with the truncated slot id, but the record rebuilt
by archive-then-restore carries `'Unknown'` — the round trip does not
reproduce `workspaceName`. -/
theorem archive_restore_workspaceName_mismatch :
    scanForChatSessions trivialEnv [c4slot] = [c4s] ∧
    c4roundtripName = some "Unknown" ∧
    c4s.workspaceName = "guid0003..." ∧
    c4roundtripName ≠ some c4s.workspaceName := by decide

/-- C4 (amended): archiving a session then restoring it reproduces a
record with the same `id` and `messageCount`, and the transcript is
back at its original path; the `workspaceName` is reproduced provided
the slot's `workspace.json` exists with a resolvable folder whose
basename is the session's workspace name (without it, restore labels
the session `'Unknown'`). -/
theorem archive_restore_roundtrip_spec (fs : FS) (session : ChatSession)
    (now : Nat) (baseRoot : FPath) (d : SessionData) (mt tw : Nat)
    (folder? : Option String)
    (hres : resolveSessionFilePath session = some session.filePath)
    (hsrc : fs.fileAt session.filePath = some (.transcript d, mt))
    (hout : isUnder (baseRoot ++ ["archive"]) session.filePath = false)
    (hid : session.id =
      basenameStrip (session.filePath.getLastD "") ".json")
    (hmc : session.messageCount = messageCountOf d)
    (hws : fs.fileAt
        (session.filePath.dropLast.dropLast ++ ["workspace.json"]) =
      some (.wsJson folder?, tw))
    (hwsout : isUnder (baseRoot ++ ["archive"])
        (session.filePath.dropLast.dropLast ++ ["workspace.json"]) =
      false)
    (hwsne : session.filePath.dropLast.dropLast ++ ["workspace.json"] ≠
      session.filePath) :
    ∃ fs1 entry,
      moveSessionToArchive fs session now baseRoot = some (fs1, entry) ∧
      ∃ r,
        (restoreArchivedSession fs1 entry.archivePath).restored? =
          some r ∧
        r.id = session.id ∧
        r.messageCount = session.messageCount ∧
        (restoreArchivedSession fs1 entry.archivePath).fs.fileAt
          session.filePath = some (.transcript d, mt) ∧
        (∀ f, folder? = some f → f ≠ "" → uriToPath f ≠ [] →
          session.workspaceName = (uriToPath f).getLastD "" →
          r.workspaceName = session.workspaceName) := by
  obtain ⟨fs1, entry, h1, h2, h3, h4, h5, h6, h7, h8, h9⟩ :=
    moveSessionToArchive_spec fs session now baseRoot session.filePath
      (.transcript d) mt hres hsrc hout
  refine ⟨fs1, entry, h1, ?_⟩
  set w := sanitizeFileName
    (if session.workspaceName = "" then "unknown-workspace"
     else session.workspaceName) with hw
  obtain ⟨x, hAPx⟩ := exists_concat_of_dropLast h4 (by simp)
  have hunder : ∀ y, isUnder (baseRoot ++ ["archive"])
      ((baseRoot ++ ["archive", w]) ++ [y]) = true := by
    intro y
    have h' : (baseRoot ++ ["archive"]) ++ [w, y] =
        (baseRoot ++ ["archive", w]) ++ [y] := by simp
    rw [← h']
    exact isUnder_append _ _ (by simp)
  have hne_out : ∀ q y, isUnder (baseRoot ++ ["archive"]) q = false →
      q ≠ (baseRoot ++ ["archive", w]) ++ [y] := by
    intro q y hq heq
    rw [heq, hunder y] at hq
    cases hq
  have hmetaAP : metaPathOf entry.archivePath =
      (baseRoot ++ ["archive", w]) ++ [x ++ ".meta.json"] := by
    rw [hAPx, metaPathOf_concat]
  have hne1 : session.filePath ≠ entry.archivePath := by
    rw [hAPx]
    exact hne_out _ _ hout
  have hne2 : session.filePath ≠ metaPathOf entry.archivePath := by
    rw [hmetaAP]
    exact hne_out _ _ hout
  have hne3 : isUnder entry.archivePath.dropLast session.filePath =
      false := by
    rw [h4]
    have hext := isUnder_extend_false w hout
    simpa using hext
  obtain ⟨r1, r2, r3, _, r5⟩ :=
    restoreArchivedSession_spec fs1 entry.archivePath
      ⟨session.filePath, session.id,
        (if session.workspaceName = "" then none
         else some session.workspaceName), now⟩
      now (.transcript d) mt h7 h6 hne1 hne2 hne3
  dsimp only at r1 r5
  have hmv := fileAt_moveFileTo fs1 session.filePath entry.archivePath
    (.transcript d) mt h6
  have hfs2p : ((fs1.moveFileTo session.filePath
      entry.archivePath).unlink
        (metaPathOf entry.archivePath)).fileAt session.filePath =
      some (.transcript d, mt) := by
    rw [fileAt_unlink, if_neg hne2, hmv, if_pos rfl]
  have hwsneq2 : session.filePath.dropLast.dropLast ++
      ["workspace.json"] ≠ metaPathOf entry.archivePath := by
    rw [hmetaAP]
    exact hne_out _ _ hwsout
  have hwsneq1 : session.filePath.dropLast.dropLast ++
      ["workspace.json"] ≠ entry.archivePath := by
    rw [hAPx]
    exact hne_out _ _ hwsout
  have hfs2ws : ((fs1.moveFileTo session.filePath
      entry.archivePath).unlink
        (metaPathOf entry.archivePath)).fileAt
      (session.filePath.dropLast.dropLast ++ ["workspace.json"]) =
      some (.wsJson folder?, tw) := by
    rw [fileAt_unlink, if_neg hwsneq2, hmv, if_neg hwsne,
      if_neg hwsneq1, h9 _ hwsne hwsneq1 hwsneq2]
    exact hws
  rw [r5]
  cases folder? with
  | none =>
    simp only [rebuildRestoredSession, hfs2p, hfs2ws]
    refine ⟨_, rfl, hid.symm, hmc.symm, r1, ?_⟩
    intro f hf
    cases hf
  | some f =>
    simp only [rebuildRestoredSession, hfs2p, hfs2ws]
    refine ⟨_, rfl, hid.symm, hmc.symm, r1, ?_⟩
    intro f' heq hfne hup hwsn
    cases heq
    dsimp only
    rw [if_pos hfne, if_pos hup]
    exact hwsn.symm

/-- Witness for `archive_restore_roundtrip_spec`: the transcript of
`c2path` with a `workspace.json` resolving to `proj`. -/
theorem archive_restore_roundtrip_instance :
    ∃ fs1 entry,
      moveSessionToArchive c4wfs c4wsession 100 ["gs"] =
        some (fs1, entry) ∧
      ∃ r,
        (restoreArchivedSession fs1 entry.archivePath).restored? =
          some r ∧
        r.id = c4wsession.id ∧
        r.messageCount = c4wsession.messageCount ∧
        (restoreArchivedSession fs1 entry.archivePath).fs.fileAt
          c4wsession.filePath =
          some (.transcript ⟨none, some [⟨some "hi"⟩]⟩, 7) ∧
        (∀ f, (some "file:///ws/proj" : Option String) = some f →
          f ≠ "" → uriToPath f ≠ [] →
          c4wsession.workspaceName = (uriToPath f).getLastD "" →
          r.workspaceName = c4wsession.workspaceName) :=
  archive_restore_roundtrip_spec c4wfs c4wsession 100 ["gs"]
    ⟨none, some [⟨some "hi"⟩]⟩ 7 3 (some "file:///ws/proj") (by decide)
    (by decide) (by decide) (by decide) (by decide) (by decide)
    (by decide) (by decide)

/-! ## Grouping and sorting lemmas (claim C1) -/

theorem insertGrouped_map_fst (k : String) (s : ChatSession) :
    ∀ acc : List (String × List ChatSession),
      (insertGrouped k s acc).map Prod.fst =
        if k ∈ acc.map Prod.fst then acc.map Prod.fst
        else acc.map Prod.fst ++ [k]
  | [] => by simp [insertGrouped]
  | (k', l) :: rest => by
    by_cases hk : k' = k
    · subst hk
      simp [insertGrouped]
    · have hk2 : ¬ k = k' := fun h => hk h.symm
      by_cases hmem : k ∈ rest.map Prod.fst <;>
        simp [insertGrouped, hk, insertGrouped_map_fst k s rest, hmem, hk2]

theorem insertGrouped_mem_key (k : String) (s : ChatSession)
    (hk : workspaceKey s = k) :
    ∀ acc : List (String × List ChatSession),
      (∀ g ∈ acc, ∀ x ∈ g.2, workspaceKey x = g.1) →
      ∀ g ∈ insertGrouped k s acc, ∀ x ∈ g.2, workspaceKey x = g.1
  | [], _, g, hg, x, hx => by
    simp [insertGrouped] at hg
    subst hg
    simp at hx
    subst hx
    exact hk
  | (k', l) :: rest, hacc, g, hg, x, hx => by
    by_cases hkk : k' = k
    · subst hkk
      simp only [insertGrouped, if_pos rfl] at hg
      rcases List.mem_cons.mp hg with hg | hg
      · subst hg
        rcases List.mem_append.mp hx with hx | hx
        · exact hacc (k', l) (List.mem_cons_self _ _) x hx
        · simp at hx
          subst hx
          exact hk
      · exact hacc g (List.mem_cons_of_mem _ hg) x hx
    · simp only [insertGrouped, if_neg hkk] at hg
      rcases List.mem_cons.mp hg with hg | hg
      · subst hg
        exact hacc (k', l) (List.mem_cons_self _ _) x hx
      · exact insertGrouped_mem_key k s hk rest
          (fun g' hg' => hacc g' (List.mem_cons_of_mem _ hg')) g hg x hx

theorem insertGrouped_nodup (k : String) (s : ChatSession)
    (acc : List (String × List ChatSession))
    (h : (acc.map Prod.fst).Nodup) :
    ((insertGrouped k s acc).map Prod.fst).Nodup := by
  rw [insertGrouped_map_fst]
  by_cases hmem : k ∈ acc.map Prod.fst
  · rw [if_pos hmem]
    exact h
  · rw [if_neg hmem]
    simp [List.nodup_append, h, hmem]

theorem groupByWorkspace_facts (sessions : List ChatSession) :
    (∀ g ∈ groupByWorkspace sessions, ∀ x ∈ g.2,
      workspaceKey x = g.1) ∧
    ((groupByWorkspace sessions).map Prod.fst).Nodup := by
  suffices h : ∀ acc : List (String × List ChatSession),
      (∀ g ∈ acc, ∀ x ∈ g.2, workspaceKey x = g.1) →
      (acc.map Prod.fst).Nodup →
      (∀ g ∈ sessions.foldl
          (fun acc s => insertGrouped (workspaceKey s) s acc) acc,
        ∀ x ∈ g.2, workspaceKey x = g.1) ∧
      ((sessions.foldl
          (fun acc s => insertGrouped (workspaceKey s) s acc) acc).map
        Prod.fst).Nodup by
    exact h [] (by simp) (by simp)
  induction sessions with
  | nil => intro acc h1 h2; exact ⟨h1, h2⟩
  | cons s rest ih =>
    intro acc h1 h2
    rw [List.foldl_cons]
    exact ih _ (insertGrouped_mem_key _ s rfl acc h1)
      (insertGrouped_nodup _ s acc h2)

theorem mem_of_mem_overflowOf {m : Nat} {arr : List ChatSession}
    {x : ChatSession} (h : x ∈ overflowOf m arr) : x ∈ arr := by
  unfold overflowOf sortByMtime at h
  exact (List.mem_insertionSort _).mp (List.mem_of_mem_take h)

theorem processed_filter_key_nil (maxSessions : Nat)
    (skip : List String) (w : String) :
    ∀ groups : List (String × List ChatSession),
      (∀ g ∈ groups, ∀ x ∈ g.2, workspaceKey x = g.1) →
      w ∉ groups.map Prod.fst →
      ((groups.filterMap fun g =>
          if g.2.length > maxSessions then
            some (g.1, overflowOf maxSessions g.2)
          else none).flatMap fun g =>
            g.2.filter fun s => ¬ isSkipAutoArchive skip s.id).filter
        (fun s => workspaceKey s = w) = []
  | [], _, _ => rfl
  | (k', l) :: rest, hkeys, hw => by
    have hw' : w ∉ rest.map Prod.fst :=
      fun h => hw (List.mem_cons_of_mem _ h)
    have hk'w : k' ≠ w := by
      intro h
      exact hw (by simp [h])
    have htail := processed_filter_key_nil maxSessions skip w rest
      (fun g hg => hkeys g (List.mem_cons_of_mem _ hg)) hw'
    by_cases hlen : l.length > maxSessions
    · rw [List.filterMap_cons_some
          (b := (k', overflowOf maxSessions l)) (by simp [hlen]),
        List.flatMap_cons, List.filter_append, htail,
        List.append_nil]
      apply List.filter_eq_nil_iff.mpr
      intro x hx
      have hx' := mem_of_mem_overflowOf (List.mem_of_mem_filter hx)
      have := hkeys (k', l) (List.mem_cons_self _ _) x hx'
      simp [this, hk'w]
    · rw [List.filterMap_cons_none (by simp [hlen])]
      exact htail

theorem processed_filter_key (maxSessions : Nat) (skip : List String) :
    ∀ (groups : List (String × List ChatSession)) (w : String)
      (arr : List ChatSession),
      (∀ g ∈ groups, ∀ x ∈ g.2, workspaceKey x = g.1) →
      (groups.map Prod.fst).Nodup →
      (w, arr) ∈ groups → arr.length > maxSessions →
      ((groups.filterMap fun g =>
          if g.2.length > maxSessions then
            some (g.1, overflowOf maxSessions g.2)
          else none).flatMap fun g =>
            g.2.filter fun s => ¬ isSkipAutoArchive skip s.id).filter
        (fun s => workspaceKey s = w) =
      (overflowOf maxSessions arr).filter
        (fun s => ¬ isSkipAutoArchive skip s.id)
  | [], _, _, _, _, hmem, _ => absurd hmem (List.not_mem_nil _)
  | (k', l) :: rest, w, arr, hkeys, hnd, hmem, hlen => by
    simp only [List.map_cons] at hnd
    rcases List.mem_cons.mp hmem with heq | hmem'
    · injection heq with hk' hl'
      subst hk'
      subst hl'
      have hw' : w ∉ rest.map Prod.fst := (List.nodup_cons.mp hnd).1
      rw [List.filterMap_cons_some
          (b := (w, overflowOf maxSessions arr)) (by simp [hlen]),
        List.flatMap_cons, List.filter_append,
        processed_filter_key_nil maxSessions skip w rest
          (fun g hg => hkeys g (List.mem_cons_of_mem _ hg)) hw',
        List.append_nil]
      apply List.filter_eq_self.mpr
      intro x hx
      have hx' := mem_of_mem_overflowOf (List.mem_of_mem_filter hx)
      simp [hkeys (w, arr) (List.mem_cons_self _ _) x hx']
    · have hk'w : k' ≠ w := by
        intro h
        subst h
        exact (List.nodup_cons.mp hnd).1
          (List.mem_map_of_mem Prod.fst hmem')
      have htail := processed_filter_key maxSessions skip rest w arr
        (fun g hg => hkeys g (List.mem_cons_of_mem _ hg))
        (List.nodup_cons.mp hnd).2 hmem' hlen
      by_cases hl : l.length > maxSessions
      · rw [List.filterMap_cons_some
            (b := (k', overflowOf maxSessions l)) (by simp [hl]),
          List.flatMap_cons, List.filter_append, htail]
        have hhead : ((overflowOf maxSessions l).filter
            (fun s => ¬ isSkipAutoArchive skip s.id)).filter
            (fun s => workspaceKey s = w) = [] := by
          apply List.filter_eq_nil_iff.mpr
          intro x hx
          have hx' := mem_of_mem_overflowOf (List.mem_of_mem_filter hx)
          simp [hkeys (k', l) (List.mem_cons_self _ _) x hx', hk'w]
        rw [hhead, List.nil_append]
      · rw [List.filterMap_cons_none (by simp [hl])]
        exact htail

theorem overflowOf_sorted (arr : List ChatSession) :
    (sortByMtime arr).Pairwise
      (fun a b => a.lastModified ≤ b.lastModified) := by
  haveI : IsTotal ChatSession
      (fun a b => a.lastModified ≤ b.lastModified) :=
    ⟨fun a b => Nat.le_total _ _⟩
  haveI : IsTrans ChatSession
      (fun a b => a.lastModified ≤ b.lastModified) :=
    ⟨fun a b c h1 h2 => Nat.le_trans h1 h2⟩
  exact List.sorted_insertionSort _ arr

theorem overflowOf_oldest (m : Nat) (arr : List ChatSession) :
    ∀ p ∈ overflowOf m arr, ∀ q ∈ arr, q ∉ overflowOf m arr →
      p.lastModified ≤ q.lastModified := by
  intro p hp q hq hqn
  have hsorted := overflowOf_sorted arr
  have hq' : q ∈ sortByMtime arr := by
    unfold sortByMtime
    exact (List.mem_insertionSort _).mpr hq
  have hsplit : q ∈ (sortByMtime arr).take (arr.length - m) ++
      (sortByMtime arr).drop (arr.length - m) := by
    rw [List.take_append_drop]
    exact hq'
  rcases List.mem_append.mp hsplit with hq2 | hq2
  · exact absurd hq2 hqn
  · have hpw_all : ((sortByMtime arr).take (arr.length - m) ++
        (sortByMtime arr).drop (arr.length - m)).Pairwise
          (fun a b : ChatSession =>
            a.lastModified ≤ b.lastModified) := by
      rw [List.take_append_drop]
      exact hsorted
    exact (List.pairwise_append.mp hpw_all).2.2 p hp q hq2

theorem overflowOf_length (m k : Nat) (arr : List ChatSession)
    (h : arr.length = m + k) : (overflowOf m arr).length = k := by
  unfold overflowOf sortByMtime
  rw [List.length_take, List.length_insertionSort]
  omega

/-! ## Claim C1: auto-archive-by-overflow -/

/-- C1: with auto-archive enabled and scope `allWorkspaces`, the run
scans fresh (the cache plays no role in the outcome); for a workspace
group of `max + k` sessions, the sessions processed for that workspace
are exactly the `k` oldest-by-`lastModified` ones minus any on the
skip-list — so when none of those `k` is skip-listed, exactly the `k`
oldest are processed — and no processed session is on the skip-list at
the time of the run. -/
theorem autoArchive_overflow_spec (cfg : AutoArchiveConfig)
    (skipList : List String) (cache : List ChatSession) (env : ScanEnv)
    (disk : Disk) (currentFolder? : Option OpenFolder) (w : String)
    (arr : List ChatSession) (k : Nat)
    (henabled : cfg.enabled = true)
    (hscope : cfg.scope = ArchiveScope.allWorkspaces)
    (hgrp : (w, arr) ∈ groupByWorkspace (scanForChatSessions env disk))
    (hlen : arr.length = cfg.maxSessions + k) (hk : 0 < k) :
    runAutoArchiveNow cfg skipList cache env disk currentFolder? =
      runAutoArchiveNow cfg skipList [] env disk currentFolder? ∧
    (runAutoArchiveNow cfg skipList cache env disk currentFolder?).filter
        (fun s => workspaceKey s = w) =
      (overflowOf cfg.maxSessions arr).filter
        (fun s => ¬ isSkipAutoArchive skipList s.id) ∧
    (overflowOf cfg.maxSessions arr).length = k ∧
    (∀ p ∈ overflowOf cfg.maxSessions arr, ∀ q ∈ arr,
      q ∉ overflowOf cfg.maxSessions arr →
      p.lastModified ≤ q.lastModified) ∧
    ((∀ s ∈ overflowOf cfg.maxSessions arr,
        isSkipAutoArchive skipList s.id = false) →
      (runAutoArchiveNow cfg skipList cache env disk
          currentFolder?).filter (fun s => workspaceKey s = w) =
        overflowOf cfg.maxSessions arr) ∧
    (∀ s ∈ runAutoArchiveNow cfg skipList cache env disk currentFolder?,
      isSkipAutoArchive skipList s.id = false) := by
  have hrun : runAutoArchiveNow cfg skipList cache env disk
      currentFolder? =
      ((groupByWorkspace (scanForChatSessions env disk)).filterMap
        fun g =>
          if g.2.length > cfg.maxSessions then
            some (g.1, overflowOf cfg.maxSessions g.2)
          else none).flatMap fun g =>
            g.2.filter fun s => ¬ isSkipAutoArchive skipList s.id := by
    simp only [runAutoArchiveNow, henabled, hscope,
      listAllChatSessions, Bool.not_true, Bool.false_and,
      Bool.false_eq_true, if_false, not_true, ite_false]
  obtain ⟨hmemkeys, hnodup⟩ :=
    groupByWorkspace_facts (scanForChatSessions env disk)
  have hlen' : arr.length > cfg.maxSessions := by omega
  have hfilter := processed_filter_key cfg.maxSessions skipList
    (groupByWorkspace (scanForChatSessions env disk)) w arr hmemkeys
    hnodup hgrp hlen'
  refine ⟨rfl, ?_, overflowOf_length _ _ _ hlen,
    overflowOf_oldest _ _, ?_, ?_⟩
  · rw [hrun]
    exact hfilter
  · intro hnone
    rw [hrun, hfilter]
    apply List.filter_eq_self.mpr
    intro x hx
    simp [hnone x hx]
  · intro s hs
    rw [hrun] at hs
    rw [List.mem_flatMap] at hs
    obtain ⟨g, _, hsg⟩ := hs
    have := (List.mem_filter.mp hsg).2
    simpa using this

/-- Witness for `autoArchive_overflow_spec`: one workspace with three
sessions (mtimes 30, 10, 20), threshold 1, a skip-list not touching the
two oldest. -/
theorem autoArchive_overflow_instance :
    (runAutoArchiveNow c1cfg ["zzz"] [] trivialEnv c1disk none).filter
        (fun s => workspaceKey s = "proj") =
      overflowOf 1 c1arr ∧
    (overflowOf 1 c1arr).length = 2 ∧
    (∀ s ∈ runAutoArchiveNow c1cfg ["zzz"] [] trivialEnv c1disk none,
      isSkipAutoArchive ["zzz"] s.id = false) := by
  have hgrp : ("proj", c1arr) ∈
      groupByWorkspace (scanForChatSessions trivialEnv c1disk) := by
    have hg : groupByWorkspace (scanForChatSessions trivialEnv c1disk) =
        [("proj", c1arr)] := by decide
    rw [hg]
    exact List.mem_cons_self _ _
  have h := autoArchive_overflow_spec c1cfg ["zzz"] [] trivialEnv c1disk
    none "proj" c1arr 2 (by decide) (by decide) hgrp (by decide)
    (by decide)
  exact ⟨h.2.2.2.2.1 (by decide), h.2.2.1, h.2.2.2.2.2⟩

end CopilotChat
